import Mathlib

/-!
Verification of the ch_os kernel core (SV39 memory management, process
model, easy-fs) against its natural-language specification.

The Rust sources are shallowly embedded: machine integers (`usize`, `u32`,
`u64`) become `Nat` with explicit masking where the source masks or where
overflow matters; fallible code (panics, `unwrap`) becomes `Option`-valued
functions, `none` standing for a panic; mutable state becomes explicit
state passing.  Physical memory holding page-table nodes is a total
function `Nat → Nat → Nat` (frame ppn → entry index → PTE bits); the data
bytes of frames are not modelled except where a claim inspects them.
-/

namespace ChOs

/-! ## Constants (src/os/src/config.rs) -/

def PAGE_SIZE : Nat := 4096

def PAGE_SIZE_BITS : Nat := 12

/-- `usize::MAX + 1` on the 64-bit target. -/
def USIZE_MOD : Nat := 2 ^ 64

/-- `pub const TRAMPOLINE: usize = usize::MAX - PAGE_SIZE + 1;` -/
def TRAMPOLINE : Nat := (USIZE_MOD - 1) - PAGE_SIZE + 1

/-- `pub const MEMORY_END: usize = 0x80800000;` -/
def MEMORY_END : Nat := 0x80800000

/-! ## Addresses and page numbers (src/os/src/memory/address.rs) -/

def PA_WIDTH_SV39 : Nat := 56

def PPN_WIDTH_SV39 : Nat := PA_WIDTH_SV39 - PAGE_SIZE_BITS

def VA_WIDTH_SV39 : Nat := 39

def VPN_WIDTH_SV39 : Nat := VA_WIDTH_SV39 - PAGE_SIZE_BITS

/-- `impl From<usize> for PhysAddr`: `Self(v & ((1 << PA_WIDTH_SV39) - 1))`. -/
def PhysAddr.from_usize (v : Nat) : Nat := v &&& (1 <<< PA_WIDTH_SV39 - 1)

/-- `impl From<usize> for PhysPageNum`: `Self(v & ((1 << PPN_WIDTH_SV39) - 1))`. -/
def PhysPageNum.from_usize (v : Nat) : Nat := v &&& (1 <<< PPN_WIDTH_SV39 - 1)

/-- `impl From<usize> for VirtAddr`: `Self(v & ((1 << VA_WIDTH_SV39) - 1))`. -/
def VirtAddr.from_usize (v : Nat) : Nat := v &&& (1 <<< VA_WIDTH_SV39 - 1)

/-- `impl From<usize> for VirtPageNum`: `Self(v & ((1 << VPN_WIDTH_SV39) - 1))`. -/
def VirtPageNum.from_usize (v : Nat) : Nat := v &&& (1 <<< VPN_WIDTH_SV39 - 1)

/-- `PhysAddr::floor`: `PhysPageNum(self.0 / PAGE_SIZE)`. -/
def PhysAddr.floor (pa : Nat) : Nat := pa / PAGE_SIZE

/-- `VirtAddr::floor`: `VirtPageNum(self.0 / PAGE_SIZE)`. -/
def VirtAddr.floor (va : Nat) : Nat := va / PAGE_SIZE

/-- `VirtAddr::page_offset`: `self.0 & (PAGE_SIZE - 1)`. -/
def VirtAddr.page_offset (va : Nat) : Nat := va &&& (PAGE_SIZE - 1)

/-- `PhysAddr::ceil` / `VirtAddr::ceil`: `(self.0 - 1 + PAGE_SIZE) / PAGE_SIZE`
on `usize`.  The build profile (overflow-checks) is not part of the sources;
following the spec, which says the `x == 0` case panics on underflow, the
subtraction is modelled as checked: `none` stands for the panic. -/
def PhysAddr.ceil (pa : Nat) : Option Nat :=
  if pa = 0 then none else some ((pa - 1 + PAGE_SIZE) / PAGE_SIZE)

/-- Same formula as `PhysAddr.ceil`, for `VirtAddr`. -/
def VirtAddr.ceil (va : Nat) : Option Nat :=
  if va = 0 then none else some ((va - 1 + PAGE_SIZE) / PAGE_SIZE)

/-! ## C9 / C10 theorems -/

theorem and_two_pow_sub_one (x n : Nat) : x &&& (1 <<< n - 1) = x % 2 ^ n := by
  have h : (1 : Nat) <<< n = 2 ^ n := by
    simp [Nat.shiftLeft_eq]
  rw [h]
  exact Nat.and_pow_two_sub_one_eq_mod x n

/-- C9: `PhysAddr::ceil` and `VirtAddr::ceil` compute
`(x − 1 + PAGE_SIZE)/PAGE_SIZE`, panicking (usize underflow) at `x = 0`,
and returning `⌈x/4096⌉` for every `x > 0`. -/
theorem ceil_spec (x : Nat) (h : 0 < x) :
    PhysAddr.ceil x = some ((x + 4095) / 4096) ∧
    VirtAddr.ceil x = some ((x + 4095) / 4096) ∧
    PhysAddr.ceil 0 = none ∧ VirtAddr.ceil 0 = none ∧
    (x + 4095) / 4096 = (x + 4096 - 1) / 4096 := by
  have hx : x ≠ 0 := Nat.pos_iff_ne_zero.mp h
  refine ⟨?_, ?_, rfl, rfl, by omega⟩
  · simp only [PhysAddr.ceil, if_neg hx, PAGE_SIZE]
    congr 1
    omega
  · simp only [VirtAddr.ceil, if_neg hx, PAGE_SIZE]
    congr 1
    omega

theorem ceil_spec_witness :
    0 < 8192 ∧
    (PhysAddr.ceil 8192 = some ((8192 + 4095) / 4096) ∧
     VirtAddr.ceil 8192 = some ((8192 + 4095) / 4096) ∧
     PhysAddr.ceil 0 = none ∧ VirtAddr.ceil 0 = none ∧
     (8192 + 4095) / 4096 = (8192 + 4096 - 1) / 4096) :=
  ⟨by decide, ceil_spec 8192 (by decide)⟩

/-- C10: every `From<usize>` conversion masks away the high bits
(VirtAddr keeps 39 bits, PhysAddr 56, VirtPageNum 27, PhysPageNum 44),
and in particular `VirtAddr::from(TRAMPOLINE)` is `2^39 − 4096`,
not `usize::MAX − 4095`. -/
theorem from_usize_masks (v : Nat) :
    VirtAddr.from_usize v = v % 2 ^ 39 ∧
    PhysAddr.from_usize v = v % 2 ^ 56 ∧
    VirtPageNum.from_usize v = v % 2 ^ 27 ∧
    PhysPageNum.from_usize v = v % 2 ^ 44 ∧
    VirtAddr.from_usize TRAMPOLINE = 2 ^ 39 - 4096 ∧
    VirtAddr.from_usize TRAMPOLINE ≠ (USIZE_MOD - 1) - 4095 := by
  refine ⟨?_, ?_, ?_, ?_, ?_, ?_⟩
  · exact and_two_pow_sub_one v 39
  · exact and_two_pow_sub_one v 56
  · exact and_two_pow_sub_one v 27
  · exact and_two_pow_sub_one v 44
  · rw [VirtAddr.from_usize]
    decide
  · rw [VirtAddr.from_usize]
    decide

/-! ## Frame allocator (src/os/src/memory/frame_allocator.rs)

`StackFrameAllocator { current, end, recycled: Vec<usize> }`.  The Rust
`Vec` is a stack (push at the tail, `pop` from the tail); it is embedded
as a `List` whose HEAD is the stack top, so `push` is `::` and `pop`
takes the head.  `end` is renamed `fend` (`end` is a Lean keyword). -/

structure StackFrameAllocator where
  current : Nat
  fend : Nat
  recycled : List Nat
deriving DecidableEq

/-- `StackFrameAllocator::alloc`.  Pops the recycled stack if non-empty,
else hands out `current` (and bumps it) unless `current == end`.
The returned value goes through `PhysPageNum::from (.into())`, which masks
to 44 bits. -/
def StackFrameAllocator.alloc (a : StackFrameAllocator) :
    Option (Nat × StackFrameAllocator) :=
  match a.recycled with
  | p :: rest => some (PhysPageNum.from_usize p, { a with recycled := rest })
  | [] =>
    if a.current = a.fend then
      none
    else
      some (PhysPageNum.from_usize a.current, { a with current := a.current + 1 })

/-- `StackFrameAllocator::dealloc`: panics (`none`) when `ppn >= current`
or `ppn` is already in `recycled`; otherwise pushes `ppn`. -/
def StackFrameAllocator.dealloc (a : StackFrameAllocator) (ppn : Nat) :
    Option StackFrameAllocator :=
  if a.current ≤ ppn ∨ ppn ∈ a.recycled then none
  else some { a with recycled := ppn :: a.recycled }

/-- States reachable from `init(l, r)` (which sets `current := l`,
`end := r`, `recycled := []`) by any sequence of `alloc` / `dealloc`.
`init` is called with `l = PhysAddr::ceil(ekernel)` and
`r = PhysAddr::floor(MEMORY_END)`; both are page numbers of 56-bit
physical addresses, hence `≤ 2^44`, and the kernel image ends below
`MEMORY_END`, hence `l ≤ r`. -/
inductive FAReach : StackFrameAllocator → Prop where
  | init (l r : Nat) (hlr : l ≤ r) (hr : r ≤ 2 ^ 44) :
      FAReach ⟨l, r, []⟩
  | alloc (a a' : StackFrameAllocator) (p : Nat) (ha : FAReach a)
      (hstep : a.alloc = some (p, a')) : FAReach a'
  | dealloc (a a' : StackFrameAllocator) (p : Nat) (ha : FAReach a)
      (hstep : a.dealloc p = some a') : FAReach a'

/-- A PPN is outstanding when it has been issued (`< current`) and not
returned (`∉ recycled`). -/
def Outstanding (a : StackFrameAllocator) (p : Nat) : Prop :=
  p < a.current ∧ p ∉ a.recycled

theorem outstanding_mk (c f p : Nat) (r : List Nat) :
    Outstanding ⟨c, f, r⟩ p ↔ p < c ∧ p ∉ r := Iff.rfl

theorem ppn_from_usize_of_lt {p : Nat} (hp : p < 2 ^ 44) :
    PhysPageNum.from_usize p = p := by
  have h44 : PPN_WIDTH_SV39 = 44 := rfl
  rw [PhysPageNum.from_usize, h44, and_two_pow_sub_one, Nat.mod_eq_of_lt hp]

theorem alloc_cons (cur fe p : Nat) (rest : List Nat) :
    StackFrameAllocator.alloc ⟨cur, fe, p :: rest⟩ =
      some (PhysPageNum.from_usize p, ⟨cur, fe, rest⟩) := rfl

theorem alloc_nil (cur fe : Nat) :
    StackFrameAllocator.alloc ⟨cur, fe, []⟩ =
      if cur = fe then none
      else some (PhysPageNum.from_usize cur, ⟨cur + 1, fe, []⟩) := rfl

theorem dealloc_eq (cur fe p : Nat) (rec : List Nat) :
    StackFrameAllocator.dealloc ⟨cur, fe, rec⟩ p =
      if cur ≤ p ∨ p ∈ rec then none else some ⟨cur, fe, p :: rec⟩ := rfl

theorem fa_reach_inv (a : StackFrameAllocator) (h : FAReach a) :
    a.current ≤ a.fend ∧ a.fend ≤ 2 ^ 44 ∧ a.recycled.Nodup ∧
      ∀ p ∈ a.recycled, p < a.current := by
  induction h with
  | init l r hlr hr => exact ⟨hlr, hr, List.nodup_nil, by simp⟩
  | alloc a a' p _ hstep ih =>
    obtain ⟨cur, fe, rec⟩ := a
    obtain ⟨h1, h2, h3, h4⟩ := ih
    simp only [] at h1 h2 h3 h4
    cases rec with
    | cons q rest =>
      rw [alloc_cons] at hstep
      simp only [Option.some.injEq, Prod.mk.injEq] at hstep
      obtain ⟨-, rfl⟩ := hstep
      refine ⟨h1, h2, (List.nodup_cons.mp h3).2, ?_⟩
      intro x hx
      exact h4 x (List.mem_cons_of_mem _ hx)
    | nil =>
      rw [alloc_nil] at hstep
      by_cases hce : cur = fe
      · rw [if_pos hce] at hstep
        cases hstep
      · rw [if_neg hce] at hstep
        simp only [Option.some.injEq, Prod.mk.injEq] at hstep
        obtain ⟨-, rfl⟩ := hstep
        exact ⟨show cur + 1 ≤ fe by omega, h2, List.nodup_nil, by simp⟩
  | dealloc a a' p _ hstep ih =>
    obtain ⟨cur, fe, rec⟩ := a
    obtain ⟨h1, h2, h3, h4⟩ := ih
    simp only [] at h1 h2 h3 h4
    rw [dealloc_eq] at hstep
    by_cases hc : cur ≤ p ∨ p ∈ rec
    · rw [if_pos hc] at hstep
      cases hstep
    · rw [if_neg hc] at hstep
      simp only [Option.some.injEq] at hstep
      subst hstep
      push_neg at hc
      refine ⟨h1, h2, List.nodup_cons.mpr ⟨hc.2, h3⟩, ?_⟩
      intro x hx
      show x < cur
      rcases List.mem_cons.mp hx with rfl | hx
      · omega
      · exact h4 x hx

/-- C4: from any reachable allocator state, `alloc` never returns an
outstanding PPN (and the returned PPN becomes outstanding, and stays
outstanding across unrelated operations, so it cannot be returned again
before its own `dealloc`); `dealloc p` panics exactly when `p ≥ current`
or `p ∈ recycled`, and otherwise pushes `p` for LIFO reuse (the very next
`alloc` returns `p`). -/
theorem frame_allocator_sound (a : StackFrameAllocator) (ha : FAReach a) :
    (∀ p a', a.alloc = some (p, a') → ¬ Outstanding a p ∧ Outstanding a' p) ∧
    (∀ p, a.dealloc p = none ↔ (a.current ≤ p ∨ p ∈ a.recycled)) ∧
    (∀ p a', a.dealloc p = some a' → a'.recycled = p :: a.recycled ∧
      a'.alloc = some (p, ⟨a.current, a.fend, a.recycled⟩)) ∧
    (∀ p q a', Outstanding a p → a.alloc = some (q, a') → Outstanding a' p) ∧
    (∀ p q a', Outstanding a p → p ≠ q → a.dealloc q = some a' →
      Outstanding a' p) := by
  obtain ⟨h1, h2, h3, h4⟩ := fa_reach_inv a ha
  obtain ⟨cur, fe, rec⟩ := a
  simp only [] at h1 h2 h3 h4
  refine ⟨?_, ?_, ?_, ?_, ?_⟩
  · intro p a' hstep
    cases rec with
    | cons q rest =>
      rw [alloc_cons] at hstep
      simp only [Option.some.injEq, Prod.mk.injEq] at hstep
      obtain ⟨hp, rfl⟩ := hstep
      have hq : q < cur := h4 q (List.mem_cons_self q rest)
      rw [@ppn_from_usize_of_lt q (by omega)] at hp
      subst hp
      simp only [outstanding_mk]
      exact ⟨fun hout => hout.2 (List.mem_cons_self q rest), hq,
        (List.nodup_cons.mp h3).1⟩
    | nil =>
      rw [alloc_nil] at hstep
      by_cases hce : cur = fe
      · rw [if_pos hce] at hstep
        cases hstep
      · rw [if_neg hce] at hstep
        simp only [Option.some.injEq, Prod.mk.injEq] at hstep
        obtain ⟨hp, rfl⟩ := hstep
        rw [@ppn_from_usize_of_lt cur (by omega)] at hp
        subst hp
        simp only [outstanding_mk]
        exact ⟨fun hout => absurd hout.1 (Nat.lt_irrefl cur), by omega, by simp⟩
  · intro p
    rw [dealloc_eq]
    by_cases hc : cur ≤ p ∨ p ∈ rec
    · simp [hc]
    · simp [hc]
  · intro p a' hstep
    rw [dealloc_eq] at hstep
    by_cases hc : cur ≤ p ∨ p ∈ rec
    · rw [if_pos hc] at hstep
      cases hstep
    · rw [if_neg hc] at hstep
      simp only [Option.some.injEq] at hstep
      subst hstep
      push_neg at hc
      refine ⟨rfl, ?_⟩
      rw [alloc_cons, @ppn_from_usize_of_lt p (by omega)]
  · intro p q a' hout hstep
    rw [outstanding_mk] at hout
    cases rec with
    | cons r rest =>
      rw [alloc_cons] at hstep
      simp only [Option.some.injEq, Prod.mk.injEq] at hstep
      obtain ⟨-, rfl⟩ := hstep
      rw [outstanding_mk]
      exact ⟨hout.1, fun hmem => hout.2 (List.mem_cons_of_mem _ hmem)⟩
    | nil =>
      rw [alloc_nil] at hstep
      by_cases hce : cur = fe
      · rw [if_pos hce] at hstep
        cases hstep
      · rw [if_neg hce] at hstep
        simp only [Option.some.injEq, Prod.mk.injEq] at hstep
        obtain ⟨-, rfl⟩ := hstep
        rw [outstanding_mk]
        exact ⟨by omega, hout.2⟩
  · intro p q a' hout hpq hstep
    rw [outstanding_mk] at hout
    rw [dealloc_eq] at hstep
    by_cases hc : cur ≤ q ∨ q ∈ rec
    · rw [if_pos hc] at hstep
      cases hstep
    · rw [if_neg hc] at hstep
      simp only [Option.some.injEq] at hstep
      subst hstep
      rw [outstanding_mk]
      refine ⟨hout.1, fun hmem => ?_⟩
      rcases List.mem_cons.mp hmem with rfl | hmem
      · exact hpq rfl
      · exact hout.2 hmem

theorem frame_allocator_sound_witness :
    FAReach ⟨5, 10, []⟩ ∧
    (¬ Outstanding ⟨5, 10, []⟩ 5 ∧ Outstanding ⟨6, 10, []⟩ 5) ∧
    (⟨6, 10, []⟩ : StackFrameAllocator).dealloc 5 = some ⟨6, 10, [5]⟩ :=
  have hreach : FAReach ⟨5, 10, []⟩ := FAReach.init 5 10 (by decide) (by norm_num)
  have hreach6 : FAReach ⟨6, 10, []⟩ :=
    FAReach.alloc ⟨5, 10, []⟩ ⟨6, 10, []⟩ 5 hreach (by decide)
  ⟨hreach,
   (frame_allocator_sound ⟨5, 10, []⟩ hreach).1 5 ⟨6, 10, []⟩ (by decide),
   by decide⟩

/-! ## SV39 page table (src/os/src/memory/page_table.rs)

Physical memory holding page-table nodes is a total function
`mem : Nat → Nat → Nat`, where `mem ppn idx` is the PTE at index `idx` of
the 512-entry array in frame `ppn` (`PhysPageNum::get_pte_array`).
A `Mach` couples this memory with the global frame allocator.
`frame_alloc()` zeroes the fresh frame (`FrameTracker::new` clears every
byte), so an allocated frame's PTE array reads all-zero. -/

structure Mach where
  mem : Nat → Nat → Nat
  fa : StackFrameAllocator

/-- Store PTE bits `v` into slot `i` of the node frame `p`. -/
def memUpd (m : Nat → Nat → Nat) (p i v : Nat) : Nat → Nat → Nat :=
  fun q j => if q = p ∧ j = i then v else m q j

/-- `frame_alloc()`: `FRAME_ALLOCATOR.alloc()` followed by
`FrameTracker::new`, which zeroes the frame. -/
def frame_alloc (s : Mach) : Option (Nat × Mach) :=
  match s.fa.alloc with
  | none => none
  | some (f, fa') =>
    some (f, { mem := fun q j => if q = f then 0 else s.mem q j, fa := fa' })

def PTE_V : Nat := 1

def PTE_R : Nat := 2

def PTE_W : Nat := 4

def PTE_X : Nat := 8

def PTE_U : Nat := 16

/-- `PageTableEntry::new(ppn, flags)`: `ppn.0 << 10 | flags.bits as usize`.
Every call site passes a `PhysPageNum` (masked to 44 bits), so the shift
cannot overflow `usize`. -/
def PageTableEntry.new (ppn flags : Nat) : Nat := ppn <<< 10 ||| flags

/-- `PageTableEntry::ppn`: `bits >> 10 & ((1usize << 44) - 1)`. -/
def PageTableEntry.ppn (bits : Nat) : Nat := (bits >>> 10) &&& (1 <<< 44 - 1)

/-- `PageTableEntry::flags`: `bits as u8` (all 8 flag bits are defined, so
`PTEFlags::from_bits` never fails). -/
def PageTableEntry.flags (bits : Nat) : Nat := bits % 256

/-- `PageTableEntry::is_valid`: `(flags & V) != empty`, i.e. bit 0. -/
def PageTableEntry.is_valid (bits : Nat) : Bool := bits.testBit 0

/-- `VirtPageNum::indexes()[0]`: bits 18–26 of the VPN. -/
def idx0 (vpn : Nat) : Nat := (vpn >>> 18) &&& 511

/-- `VirtPageNum::indexes()[1]`: bits 9–17 of the VPN. -/
def idx1 (vpn : Nat) : Nat := (vpn >>> 9) &&& 511

/-- `VirtPageNum::indexes()[2]`: bits 0–8 of the VPN. -/
def idx2 (vpn : Nat) : Nat := vpn &&& 511

/-- One non-leaf iteration of `find_pte_create`'s walk at node `p`,
level index `i`: descend through a valid entry, or allocate a zeroed
node frame, link it with flags `V`, and descend into it.  (`none` is the
`frame_alloc().unwrap()` panic.) -/
def find_pte_step (s : Mach) (p i : Nat) : Option (Nat × Mach) :=
  if PageTableEntry.is_valid (s.mem p i) then
    some (PageTableEntry.ppn (s.mem p i), s)
  else
    match frame_alloc s with
    | none => none
    | some (f, s1) =>
      some (f, { s1 with mem := memUpd s1.mem p i (PageTableEntry.new f PTE_V) })

/-- `PageTable::find_pte_create`, the three-level loop unrolled: two
non-leaf iterations, then the leaf slot `(node frame, index)` is
returned. -/
def PageTable.find_pte_create (s : Mach) (root vpn : Nat) :
    Option ((Nat × Nat) × Mach) :=
  match find_pte_step s root (idx0 vpn) with
  | none => none
  | some (p1, s1) =>
    match find_pte_step s1 p1 (idx1 vpn) with
    | none => none
    | some (p2, s2) => some ((p2, idx2 vpn), s2)

/-- `PageTable::find_pte` (read-only walk), the loop unrolled.  Note that
only the validity of the two intermediate entries is checked; at `i == 2`
the leaf slot is returned unconditionally. -/
def PageTable.find_pte (s : Mach) (root vpn : Nat) : Option (Nat × Nat) :=
  if PageTableEntry.is_valid (s.mem root (idx0 vpn)) then
    if PageTableEntry.is_valid
        (s.mem (PageTableEntry.ppn (s.mem root (idx0 vpn))) (idx1 vpn)) then
      some (PageTableEntry.ppn
        (s.mem (PageTableEntry.ppn (s.mem root (idx0 vpn))) (idx1 vpn)),
        idx2 vpn)
    else none
  else none

/-- `PageTable::map`: `find_pte_create(vpn).unwrap()`, assert the leaf is
invalid (`none` = the *AlreadyMapped* panic), then store
`PageTableEntry::new(ppn, flags | V)`. -/
def PageTable.map (s : Mach) (root vpn ppn flags : Nat) : Option Mach :=
  match PageTable.find_pte_create s root vpn with
  | none => none
  | some ((p, i), s1) =>
    if PageTableEntry.is_valid (s1.mem p i) then none
    else
      some { s1 with
        mem := memUpd s1.mem p i (PageTableEntry.new ppn (flags ||| PTE_V)) }

/-- `PageTable::unmap`: `find_pte(vpn).unwrap()`, assert the leaf is
valid, then clear the slot to `PageTableEntry::empty()` (all-zero). -/
def PageTable.unmap (s : Mach) (root vpn : Nat) : Option Mach :=
  match PageTable.find_pte s root vpn with
  | none => none
  | some (p, i) =>
    if PageTableEntry.is_valid (s.mem p i) then
      some { s with mem := memUpd s.mem p i 0 }
    else none

/-- `PageTable::translate`: copy of the PTE found by `find_pte`. -/
def PageTable.translate (s : Mach) (root vpn : Nat) : Option Nat :=
  (PageTable.find_pte s root vpn).map (fun pi => s.mem pi.1 pi.2)

/-- `PageTable::token`: `8usize << 60 | root_ppn.0`. -/
def PageTable.token (root : Nat) : Nat := 8 <<< 60 ||| root

/-- `PageTable::from_token`: root ppn recovered from a SATP value. -/
def PageTable.from_token (satp : Nat) : Nat :=
  PhysPageNum.from_usize (satp &&& (1 <<< 44 - 1))

/-- `PageTable::translate_va`: walk for `va.floor()`, then re-attach the
page offset; the result passes through `PhysAddr::from` (56-bit mask). -/
def PageTable.translate_va (s : Mach) (root va : Nat) : Option Nat :=
  (PageTable.find_pte s root (VirtAddr.floor va)).map (fun pi =>
    PhysAddr.from_usize
      ((PageTableEntry.ppn (s.mem pi.1 pi.2)) <<< PAGE_SIZE_BITS +
        VirtAddr.page_offset va))

/-! ### Helper lemmas about PTE bits and memory updates -/

theorem memUpd_same (m : Nat → Nat → Nat) (p i v : Nat) :
    memUpd m p i v p i = v := by
  simp [memUpd]

theorem memUpd_frame_ne (m : Nat → Nat → Nat) (p i v q j : Nat) (h : q ≠ p) :
    memUpd m p i v q j = m q j := by
  simp [memUpd, h]

theorem memUpd_idx_ne (m : Nat → Nat → Nat) (p i v q j : Nat) (h : j ≠ i) :
    memUpd m p i v q j = m q j := by
  unfold memUpd
  rw [if_neg (show ¬ (q = p ∧ j = i) from fun hc => h hc.2)]

theorem is_valid_zero : PageTableEntry.is_valid 0 = false := rfl

theorem is_valid_new (p fl : Nat) (h : fl % 2 = 1) :
    PageTableEntry.is_valid (PageTableEntry.new p fl) = true := by
  simp only [PageTableEntry.is_valid, PageTableEntry.new, Nat.testBit_or,
    Nat.testBit_zero]
  have : (p <<< 10) % 2 = 0 := by
    rw [Nat.shiftLeft_eq]
    omega
  simp [this, h]

theorem or_V_mod_two (fl : Nat) : (fl ||| PTE_V) % 2 = 1 := by
  have h1 : (fl ||| PTE_V).testBit 0 = true := by
    simp [Nat.testBit_or, PTE_V]
  simpa [Nat.testBit_zero] using h1

theorem ppn_new (p fl : Nat) (hp : p < 2 ^ 44) (hfl : fl < 1024) :
    PageTableEntry.ppn (PageTableEntry.new p fl) = p := by
  unfold PageTableEntry.ppn PageTableEntry.new
  rw [and_two_pow_sub_one]
  apply Nat.eq_of_testBit_eq
  intro j
  rw [Nat.testBit_mod_two_pow, Nat.testBit_shiftRight, Nat.testBit_or,
    Nat.testBit_shiftLeft]
  have hfl10 : fl.testBit (10 + j) = false := by
    apply Nat.testBit_lt_two_pow
    calc fl < 1024 := hfl
    _ = 2 ^ 10 := by norm_num
    _ ≤ 2 ^ (10 + j) := Nat.pow_le_pow_right (by norm_num) (by omega)
  have h10 : 10 + j - 10 = j := by omega
  have hge : (10 + j ≥ 10) = True := by simp
  rw [hfl10, h10]
  by_cases hj : j < 44
  · simp [hj]
  · have hpj : p.testBit j = false := by
      apply Nat.testBit_lt_two_pow
      calc p < 2 ^ 44 := hp
      _ ≤ 2 ^ j := Nat.pow_le_pow_right (by norm_num) (by omega)
    simp [hj, hpj]

theorem flags_new (p fl : Nat) (hfl : fl < 256) :
    PageTableEntry.flags (PageTableEntry.new p fl) = fl := by
  unfold PageTableEntry.flags PageTableEntry.new
  have h256 : (256 : Nat) = 2 ^ 8 := by norm_num
  rw [h256]
  apply Nat.eq_of_testBit_eq
  intro j
  rw [Nat.testBit_mod_two_pow, Nat.testBit_or, Nat.testBit_shiftLeft]
  by_cases hj : j < 8
  · have : ¬ (j ≥ 10) := by omega
    simp [hj, this]
  · have hflj : fl.testBit j = false := by
      apply Nat.testBit_lt_two_pow
      calc fl < 256 := hfl
      _ = 2 ^ 8 := by norm_num
      _ ≤ 2 ^ j := Nat.pow_le_pow_right (by norm_num) (by omega)
    simp [hj, hflj]

theorem ppn_lt (bits : Nat) : PageTableEntry.ppn bits < 2 ^ 44 := by
  unfold PageTableEntry.ppn
  rw [and_two_pow_sub_one]
  exact Nat.mod_lt _ (by norm_num)

theorem or_lt_1024 {a b : Nat} (ha : a < 1024) (hb : b < 1024) :
    a ||| b < 1024 := by
  have h : (1024 : Nat) = 2 ^ 10 := by norm_num
  rw [h] at ha hb ⊢
  exact Nat.or_lt_two_pow ha hb

/-! ### Page-table invariant and the allocation lemma -/

/-- A frame that a future `alloc` may hand out. -/
def InPool (fa : StackFrameAllocator) (f : Nat) : Prop :=
  f ∈ fa.recycled ∨ (fa.current ≤ f ∧ f < fa.fend)

/-- Well-formedness of a machine state with a three-level page table
rooted at `root`: the allocator state is sane, and neither the root nor
any node frame reachable from it can ever be handed out again by
`alloc`; distinct levels of the tree live in distinct frames.  All of
this holds in every state the kernel actually constructs (node frames
come out of the allocator exactly once and are owned by the page table's
`frames` vector until the table is dropped). -/
structure PTInv (s : Mach) (root : Nat) : Prop where
  fa_le : s.fa.current ≤ s.fa.fend
  fa_bound : s.fa.fend ≤ 2 ^ 44
  fa_nodup : s.fa.recycled.Nodup
  fa_rec_lt : ∀ p ∈ s.fa.recycled, p < s.fa.current
  root_notin : ¬ InPool s.fa root
  l1_notin : ∀ j, PageTableEntry.is_valid (s.mem root j) = true →
    ¬ InPool s.fa (PageTableEntry.ppn (s.mem root j))
  l1_ne_root : ∀ j, PageTableEntry.is_valid (s.mem root j) = true →
    PageTableEntry.ppn (s.mem root j) ≠ root
  l2_ne_root : ∀ j k, PageTableEntry.is_valid (s.mem root j) = true →
    PageTableEntry.is_valid
      (s.mem (PageTableEntry.ppn (s.mem root j)) k) = true →
    PageTableEntry.ppn
      (s.mem (PageTableEntry.ppn (s.mem root j)) k) ≠ root
  l2_ne_l1 : ∀ j k, PageTableEntry.is_valid (s.mem root j) = true →
    PageTableEntry.is_valid
      (s.mem (PageTableEntry.ppn (s.mem root j)) k) = true →
    PageTableEntry.ppn
      (s.mem (PageTableEntry.ppn (s.mem root j)) k) ≠
      PageTableEntry.ppn (s.mem root j)

theorem frame_alloc_spec (s : Mach)
    (hbound : s.fa.fend ≤ 2 ^ 44)
    (hnodup : s.fa.recycled.Nodup)
    (hrec : ∀ p ∈ s.fa.recycled, p < s.fa.current)
    (hroom : s.fa.current < s.fa.fend) :
    ∃ f s1, frame_alloc s = some (f, s1) ∧
      f < 2 ^ 44 ∧ InPool s.fa f ∧
      (∀ j, s1.mem f j = 0) ∧
      (∀ q j, q ≠ f → s1.mem q j = s.mem q j) ∧
      s1.fa.recycled.Nodup ∧
      (∀ p ∈ s1.fa.recycled, p < s1.fa.current) ∧
      (∀ g, InPool s1.fa g → InPool s.fa g ∧ g ≠ f) ∧
      s1.fa.fend = s.fa.fend ∧
      s.fa.current ≤ s1.fa.current ∧ s1.fa.current ≤ s.fa.current + 1 := by
  obtain ⟨m, cur, fe, rec⟩ := s
  simp only [] at hbound hnodup hrec hroom
  cases rec with
  | cons p rest =>
    have hp : p < cur := hrec p (List.mem_cons_self p rest)
    have hmask : PhysPageNum.from_usize p = p :=
      ppn_from_usize_of_lt (by omega)
    refine ⟨p, ⟨fun q j => if q = p then 0 else m q j, cur, fe, rest⟩,
      ?_, by omega, Or.inl (List.mem_cons_self p rest), ?_, ?_,
      (List.nodup_cons.mp hnodup).2, ?_, ?_, rfl, Nat.le_refl cur,
      show cur ≤ cur + 1 by omega⟩
    · simp only [frame_alloc, alloc_cons, hmask]
    · intro j
      show (if p = p then 0 else m p j) = 0
      simp
    · intro q j h
      show (if q = p then 0 else m q j) = m q j
      simp [h]
    · intro x hx
      exact hrec x (List.mem_cons_of_mem _ hx)
    · intro g hg
      simp only [InPool] at hg ⊢
      rcases hg with hgr | ⟨hcg, hgf⟩
      · refine ⟨Or.inl (List.mem_cons_of_mem _ hgr), ?_⟩
        intro hgp
        subst hgp
        exact (List.nodup_cons.mp hnodup).1 hgr
      · exact ⟨Or.inr ⟨hcg, hgf⟩, by omega⟩
  | nil =>
    have hne : cur ≠ fe := by omega
    have hmask : PhysPageNum.from_usize cur = cur :=
      ppn_from_usize_of_lt (by omega)
    refine ⟨cur, ⟨fun q j => if q = cur then 0 else m q j, cur + 1, fe, []⟩,
      ?_, by omega, Or.inr ⟨Nat.le_refl cur, hroom⟩, ?_, ?_,
      List.nodup_nil, by simp, ?_, rfl, show cur ≤ cur + 1 by omega,
      show cur + 1 ≤ cur + 1 by omega⟩
    · simp only [frame_alloc, alloc_nil, if_neg hne, hmask]
    · intro j
      show (if cur = cur then 0 else m cur j) = 0
      simp
    · intro q j h
      show (if q = cur then 0 else m q j) = m q j
      simp [h]
    · intro g hg
      simp only [InPool] at hg ⊢
      rcases hg with hgr | ⟨hcg, hgf⟩
      · cases hgr
      · exact ⟨Or.inr ⟨by omega, hgf⟩, by omega⟩

/-- After `map` has linked a complete path `root → n1 → n2 → leaf` for
`vpn`, the walk re-reads exactly those three slots; clearing the leaf
with `unmap` leaves the intermediate path intact, so `translate` then
returns `some 0` (the zero PTE), not `none`. -/
theorem translate_unmap_of_reads (s1 : Mach) (root vpn n1 n2 v0 v1 lv : Nat)
    (hr0 : s1.mem root (idx0 vpn) = v0)
    (hv0 : PageTableEntry.is_valid v0 = true)
    (hppn0 : PageTableEntry.ppn v0 = n1)
    (hr1 : s1.mem n1 (idx1 vpn) = v1)
    (hv1 : PageTableEntry.is_valid v1 = true)
    (hppn1 : PageTableEntry.ppn v1 = n2)
    (hrleaf : s1.mem n2 (idx2 vpn) = lv)
    (hlv : PageTableEntry.is_valid lv = true)
    (hn2root : n2 ≠ root) (hn2n1 : n2 ≠ n1) :
    PageTable.translate s1 root vpn = some lv ∧
    ∃ s2, PageTable.unmap s1 root vpn = some s2 ∧
      PageTable.translate s2 root vpn = some 0 := by
  have hfind : PageTable.find_pte s1 root vpn = some (n2, idx2 vpn) := by
    unfold PageTable.find_pte
    rw [hr0, hv0, hppn0, hr1, hv1, hppn1]
    simp
  have htrans : PageTable.translate s1 root vpn = some lv := by
    unfold PageTable.translate
    rw [hfind]
    simp [hrleaf]
  refine ⟨htrans, ⟨memUpd s1.mem n2 (idx2 vpn) 0, s1.fa⟩, ?_, ?_⟩
  · unfold PageTable.unmap
    rw [hfind]
    simp [hrleaf, hlv]
  · have hr0' : (⟨memUpd s1.mem n2 (idx2 vpn) 0, s1.fa⟩ : Mach).mem root
        (idx0 vpn) = v0 := by
      show memUpd s1.mem n2 (idx2 vpn) 0 root (idx0 vpn) = v0
      rw [memUpd_frame_ne _ _ _ _ _ _ (Ne.symm hn2root)]
      exact hr0
    have hr1' : (⟨memUpd s1.mem n2 (idx2 vpn) 0, s1.fa⟩ : Mach).mem n1
        (idx1 vpn) = v1 := by
      show memUpd s1.mem n2 (idx2 vpn) 0 n1 (idx1 vpn) = v1
      rw [memUpd_frame_ne _ _ _ _ _ _ (Ne.symm hn2n1)]
      exact hr1
    have hrl' : (⟨memUpd s1.mem n2 (idx2 vpn) 0, s1.fa⟩ : Mach).mem n2
        (idx2 vpn) = 0 := by
      show memUpd s1.mem n2 (idx2 vpn) 0 n2 (idx2 vpn) = 0
      exact memUpd_same _ _ _ _
    have hfind' : PageTable.find_pte
        ⟨memUpd s1.mem n2 (idx2 vpn) 0, s1.fa⟩ root vpn =
        some (n2, idx2 vpn) := by
      unfold PageTable.find_pte
      rw [hr0', hv0, hppn0, hr1', hv1, hppn1]
      simp
    unfold PageTable.translate
    rw [hfind']
    simp [memUpd_same]

theorem find_pte_create_eq (s s1 s2 : Mach) (root vpn p1 p2 : Nat)
    (h0 : find_pte_step s root (idx0 vpn) = some (p1, s1))
    (h1 : find_pte_step s1 p1 (idx1 vpn) = some (p2, s2)) :
    PageTable.find_pte_create s root vpn = some ((p2, idx2 vpn), s2) := by
  unfold PageTable.find_pte_create
  rw [h0]
  simp [h1]

/-- C1 (amended): for every `vpn` whose leaf PTE is currently invalid
(or whose walk fails at an intermediate node), `map(vpn, ppn, flags)`
succeeds and `translate(vpn)` yields `Some` PTE with `.ppn() = ppn` and
flags exactly `flags ∪ {V}` (hence a superset of `flags ∪ {V}`).
After `unmap(vpn)`, however, `translate(vpn)` returns `Some` of the
all-zero, invalid PTE — NOT `None`: `find_pte` checks validity only of
the two intermediate levels and returns the leaf slot unconditionally. -/
theorem page_table_map_translate_unmap
    (s : Mach) (root vpn ppn flags : Nat) (hinv : PTInv s root)
    (hppn : ppn < 2 ^ 44) (hflags : flags < 256)
    (hleaf : ∀ p i, PageTable.find_pte s root vpn = some (p, i) →
      PageTableEntry.is_valid (s.mem p i) = false)
    (hroom : s.fa.current + 2 ≤ s.fa.fend) :
    ∃ s1, PageTable.map s root vpn ppn flags = some s1 ∧
      PageTable.translate s1 root vpn =
        some (PageTableEntry.new ppn (flags ||| PTE_V)) ∧
      PageTableEntry.ppn (PageTableEntry.new ppn (flags ||| PTE_V)) = ppn ∧
      PageTableEntry.flags (PageTableEntry.new ppn (flags ||| PTE_V)) =
        flags ||| PTE_V ∧
      (flags ||| PTE_V) &&&
        PageTableEntry.flags (PageTableEntry.new ppn (flags ||| PTE_V)) =
        flags ||| PTE_V ∧
      ∃ s2, PageTable.unmap s1 root vpn = some s2 ∧
        PageTable.translate s2 root vpn = some 0 ∧
        PageTableEntry.is_valid 0 = false := by
  have hflV256 : flags ||| PTE_V < 256 := by
    have h8 : (256 : Nat) = 2 ^ 8 := by norm_num
    rw [h8] at hflags ⊢
    exact Nat.or_lt_two_pow hflags (by norm_num [PTE_V])
  have hnewppn : PageTableEntry.ppn
      (PageTableEntry.new ppn (flags ||| PTE_V)) = ppn :=
    ppn_new ppn _ hppn (by omega)
  have hnewflags : PageTableEntry.flags
      (PageTableEntry.new ppn (flags ||| PTE_V)) = flags ||| PTE_V :=
    flags_new ppn _ hflV256
  have hnewvalid : PageTableEntry.is_valid
      (PageTableEntry.new ppn (flags ||| PTE_V)) = true :=
    is_valid_new ppn _ (or_V_mod_two flags)
  have hand : (flags ||| PTE_V) &&&
      PageTableEntry.flags (PageTableEntry.new ppn (flags ||| PTE_V)) =
      flags ||| PTE_V := by
    rw [hnewflags]
    exact Nat.and_self _
  have hVmod : PTE_V % 2 = 1 := by norm_num [PTE_V]
  have hV1024 : PTE_V < 1024 := by norm_num [PTE_V]
  cases hv0 : PageTableEntry.is_valid (s.mem root (idx0 vpn)) with
  | false =>
    -- Level-0 entry invalid: two fresh zeroed node frames get linked in.
    obtain ⟨f0, sa, halloc0, hf0lt, hf0pool, hf0zero, hf0other, hnodupa,
      hreca, hpoolmap_a, hfend_a, hcur_a1, hcur_a2⟩ :=
      frame_alloc_spec s hinv.fa_bound hinv.fa_nodup hinv.fa_rec_lt
        (by omega)
    have hf0root : f0 ≠ root := fun he => hinv.root_notin (he ▸ hf0pool)
    have hstep0 : find_pte_step s root (idx0 vpn) =
        some (f0, ⟨memUpd sa.mem root (idx0 vpn)
          (PageTableEntry.new f0 PTE_V), sa.fa⟩) := by
      unfold find_pte_step
      rw [hv0, halloc0]
      simp
    obtain ⟨f1, sc, halloc1, hf1lt, hf1poolb, hf1zero, hf1other, hnodupc,
      hrecc, hpoolmap_c, hfend_c, hcur_c1, hcur_c2⟩ :=
      frame_alloc_spec
        ⟨memUpd sa.mem root (idx0 vpn) (PageTableEntry.new f0 PTE_V), sa.fa⟩
        (by show sa.fa.fend ≤ 2 ^ 44
            have hb := hinv.fa_bound
            omega)
        hnodupa hreca
        (by show sa.fa.current < sa.fa.fend
            omega)
    have hf1f0 : f1 ≠ f0 := (hpoolmap_a f1 hf1poolb).2
    have hf1pool : InPool s.fa f1 := (hpoolmap_a f1 hf1poolb).1
    have hf1root : f1 ≠ root := fun he => hinv.root_notin (he ▸ hf1pool)
    have hbmem : memUpd sa.mem root (idx0 vpn)
        (PageTableEntry.new f0 PTE_V) f0 (idx1 vpn) = 0 := by
      rw [memUpd_frame_ne _ _ _ _ _ _ hf0root]
      exact hf0zero (idx1 vpn)
    have hv1 : PageTableEntry.is_valid
        (memUpd sa.mem root (idx0 vpn)
          (PageTableEntry.new f0 PTE_V) f0 (idx1 vpn)) = false := by
      rw [hbmem]
      exact is_valid_zero
    have hstep1 : find_pte_step
        ⟨memUpd sa.mem root (idx0 vpn) (PageTableEntry.new f0 PTE_V), sa.fa⟩
        f0 (idx1 vpn) =
        some (f1, ⟨memUpd sc.mem f0 (idx1 vpn)
          (PageTableEntry.new f1 PTE_V), sc.fa⟩) := by
      unfold find_pte_step
      rw [show (⟨memUpd sa.mem root (idx0 vpn)
          (PageTableEntry.new f0 PTE_V), sa.fa⟩ : Mach).mem f0 (idx1 vpn) =
          memUpd sa.mem root (idx0 vpn)
            (PageTableEntry.new f0 PTE_V) f0 (idx1 vpn) from rfl,
        hv1, halloc1]
      simp
    have hcreate : PageTable.find_pte_create s root vpn =
        some ((f1, idx2 vpn), ⟨memUpd sc.mem f0 (idx1 vpn)
          (PageTableEntry.new f1 PTE_V), sc.fa⟩) :=
      find_pte_create_eq _ _ _ _ _ _ _ hstep0 hstep1
    have hdleaf : memUpd sc.mem f0 (idx1 vpn)
        (PageTableEntry.new f1 PTE_V) f1 (idx2 vpn) = 0 := by
      rw [memUpd_frame_ne _ _ _ _ _ _ hf1f0]
      exact hf1zero (idx2 vpn)
    have hmap : PageTable.map s root vpn ppn flags =
        some ⟨memUpd (memUpd sc.mem f0 (idx1 vpn)
            (PageTableEntry.new f1 PTE_V)) f1 (idx2 vpn)
            (PageTableEntry.new ppn (flags ||| PTE_V)), sc.fa⟩ := by
      unfold PageTable.map
      rw [hcreate]
      simp [hdleaf, is_valid_zero]
    have hr0 : (⟨memUpd (memUpd sc.mem f0 (idx1 vpn)
        (PageTableEntry.new f1 PTE_V)) f1 (idx2 vpn)
        (PageTableEntry.new ppn (flags ||| PTE_V)), sc.fa⟩ : Mach).mem
        root (idx0 vpn) = PageTableEntry.new f0 PTE_V := by
      show memUpd (memUpd sc.mem f0 (idx1 vpn) _) f1 (idx2 vpn) _
        root (idx0 vpn) = _
      rw [memUpd_frame_ne _ _ _ _ _ _ (Ne.symm hf1root),
        memUpd_frame_ne _ _ _ _ _ _ (Ne.symm hf0root),
        hf1other root (idx0 vpn) (Ne.symm hf1root)]
      exact memUpd_same _ _ _ _
    have hr1 : (⟨memUpd (memUpd sc.mem f0 (idx1 vpn)
        (PageTableEntry.new f1 PTE_V)) f1 (idx2 vpn)
        (PageTableEntry.new ppn (flags ||| PTE_V)), sc.fa⟩ : Mach).mem
        f0 (idx1 vpn) = PageTableEntry.new f1 PTE_V := by
      show memUpd (memUpd sc.mem f0 (idx1 vpn) _) f1 (idx2 vpn) _
        f0 (idx1 vpn) = _
      rw [memUpd_frame_ne _ _ _ _ _ _ (Ne.symm hf1f0)]
      exact memUpd_same _ _ _ _
    have hrleaf : (⟨memUpd (memUpd sc.mem f0 (idx1 vpn)
        (PageTableEntry.new f1 PTE_V)) f1 (idx2 vpn)
        (PageTableEntry.new ppn (flags ||| PTE_V)), sc.fa⟩ : Mach).mem
        f1 (idx2 vpn) = PageTableEntry.new ppn (flags ||| PTE_V) :=
      memUpd_same _ _ _ _
    obtain ⟨htr1, s2, hun, htr2⟩ :=
      translate_unmap_of_reads _ root vpn f0 f1 _ _ _
        hr0 (is_valid_new f0 PTE_V hVmod) (ppn_new f0 PTE_V hf0lt hV1024)
        hr1 (is_valid_new f1 PTE_V hVmod) (ppn_new f1 PTE_V hf1lt hV1024)
        hrleaf hnewvalid hf1root hf1f0
    exact ⟨_, hmap, htr1, hnewppn, hnewflags, hand, s2, hun, htr2,
      is_valid_zero⟩
  | true =>
    have hstep0 : find_pte_step s root (idx0 vpn) =
        some (PageTableEntry.ppn (s.mem root (idx0 vpn)), s) := by
      unfold find_pte_step
      rw [hv0]
      simp
    have hp1notin := hinv.l1_notin (idx0 vpn) hv0
    have hp1root := hinv.l1_ne_root (idx0 vpn) hv0
    cases hv1 : PageTableEntry.is_valid
        (s.mem (PageTableEntry.ppn (s.mem root (idx0 vpn)))
          (idx1 vpn)) with
    | false =>
      -- Level-1 entry invalid: one fresh zeroed node frame gets linked.
      obtain ⟨f1, sa, halloc0, hf1lt, hf1pool, hf1zero, hf1other, hnodupa,
        hreca, hpoolmap_a, hfend_a, hcur_a1, hcur_a2⟩ :=
        frame_alloc_spec s hinv.fa_bound hinv.fa_nodup hinv.fa_rec_lt
          (by omega)
      have hf1root : f1 ≠ root := fun he => hinv.root_notin (he ▸ hf1pool)
      have hf1p1 : f1 ≠ PageTableEntry.ppn (s.mem root (idx0 vpn)) :=
        fun he => hp1notin (he ▸ hf1pool)
      have hstep1 : find_pte_step s
          (PageTableEntry.ppn (s.mem root (idx0 vpn))) (idx1 vpn) =
          some (f1, ⟨memUpd sa.mem
            (PageTableEntry.ppn (s.mem root (idx0 vpn))) (idx1 vpn)
            (PageTableEntry.new f1 PTE_V), sa.fa⟩) := by
        unfold find_pte_step
        rw [hv1, halloc0]
        simp
      have hcreate : PageTable.find_pte_create s root vpn =
          some ((f1, idx2 vpn), ⟨memUpd sa.mem
            (PageTableEntry.ppn (s.mem root (idx0 vpn))) (idx1 vpn)
            (PageTableEntry.new f1 PTE_V), sa.fa⟩) :=
        find_pte_create_eq _ _ _ _ _ _ _ hstep0 hstep1
      have hdleaf : memUpd sa.mem
          (PageTableEntry.ppn (s.mem root (idx0 vpn))) (idx1 vpn)
          (PageTableEntry.new f1 PTE_V) f1 (idx2 vpn) = 0 := by
        rw [memUpd_frame_ne _ _ _ _ _ _ hf1p1]
        exact hf1zero (idx2 vpn)
      have hmap : PageTable.map s root vpn ppn flags =
          some ⟨memUpd (memUpd sa.mem
              (PageTableEntry.ppn (s.mem root (idx0 vpn))) (idx1 vpn)
              (PageTableEntry.new f1 PTE_V)) f1 (idx2 vpn)
              (PageTableEntry.new ppn (flags ||| PTE_V)), sa.fa⟩ := by
        unfold PageTable.map
        rw [hcreate]
        simp [hdleaf, is_valid_zero]
      have hr0 : (⟨memUpd (memUpd sa.mem
          (PageTableEntry.ppn (s.mem root (idx0 vpn))) (idx1 vpn)
          (PageTableEntry.new f1 PTE_V)) f1 (idx2 vpn)
          (PageTableEntry.new ppn (flags ||| PTE_V)), sa.fa⟩ : Mach).mem
          root (idx0 vpn) = s.mem root (idx0 vpn) := by
        show memUpd (memUpd sa.mem _ (idx1 vpn) _) f1 (idx2 vpn) _
          root (idx0 vpn) = _
        rw [memUpd_frame_ne _ _ _ _ _ _ (Ne.symm hf1root),
          memUpd_frame_ne _ _ _ _ _ _ (Ne.symm hp1root)]
        exact hf1other root (idx0 vpn) (Ne.symm hf1root)
      have hr1 : (⟨memUpd (memUpd sa.mem
          (PageTableEntry.ppn (s.mem root (idx0 vpn))) (idx1 vpn)
          (PageTableEntry.new f1 PTE_V)) f1 (idx2 vpn)
          (PageTableEntry.new ppn (flags ||| PTE_V)), sa.fa⟩ : Mach).mem
          (PageTableEntry.ppn (s.mem root (idx0 vpn))) (idx1 vpn) =
          PageTableEntry.new f1 PTE_V := by
        show memUpd (memUpd sa.mem _ (idx1 vpn) _) f1 (idx2 vpn) _
          (PageTableEntry.ppn (s.mem root (idx0 vpn))) (idx1 vpn) = _
        rw [memUpd_frame_ne _ _ _ _ _ _ (Ne.symm hf1p1)]
        exact memUpd_same _ _ _ _
      have hrleaf : (⟨memUpd (memUpd sa.mem
          (PageTableEntry.ppn (s.mem root (idx0 vpn))) (idx1 vpn)
          (PageTableEntry.new f1 PTE_V)) f1 (idx2 vpn)
          (PageTableEntry.new ppn (flags ||| PTE_V)), sa.fa⟩ : Mach).mem
          f1 (idx2 vpn) = PageTableEntry.new ppn (flags ||| PTE_V) :=
        memUpd_same _ _ _ _
      obtain ⟨htr1, s2, hun, htr2⟩ :=
        translate_unmap_of_reads _ root vpn
          (PageTableEntry.ppn (s.mem root (idx0 vpn))) f1 _ _ _
          hr0 hv0 rfl
          hr1 (is_valid_new f1 PTE_V hVmod) (ppn_new f1 PTE_V hf1lt hV1024)
          hrleaf hnewvalid hf1root hf1p1
      exact ⟨_, hmap, htr1, hnewppn, hnewflags, hand, s2, hun, htr2,
        is_valid_zero⟩
    | true =>
      -- Both intermediate entries valid: no allocation happens.
      have hfind : PageTable.find_pte s root vpn =
          some (PageTableEntry.ppn
            (s.mem (PageTableEntry.ppn (s.mem root (idx0 vpn)))
              (idx1 vpn)), idx2 vpn) := by
        unfold PageTable.find_pte
        rw [hv0, hv1]
        simp
      have hleafinv := hleaf _ _ hfind
      have hp2root := hinv.l2_ne_root (idx0 vpn) (idx1 vpn) hv0 hv1
      have hp2p1 := hinv.l2_ne_l1 (idx0 vpn) (idx1 vpn) hv0 hv1
      have hstep1 : find_pte_step s
          (PageTableEntry.ppn (s.mem root (idx0 vpn))) (idx1 vpn) =
          some (PageTableEntry.ppn
            (s.mem (PageTableEntry.ppn (s.mem root (idx0 vpn)))
              (idx1 vpn)), s) := by
        unfold find_pte_step
        rw [hv1]
        simp
      have hcreate : PageTable.find_pte_create s root vpn =
          some ((PageTableEntry.ppn
            (s.mem (PageTableEntry.ppn (s.mem root (idx0 vpn)))
              (idx1 vpn)), idx2 vpn), s) :=
        find_pte_create_eq _ _ _ _ _ _ _ hstep0 hstep1
      have hmap : PageTable.map s root vpn ppn flags =
          some ⟨memUpd s.mem
            (PageTableEntry.ppn
              (s.mem (PageTableEntry.ppn (s.mem root (idx0 vpn)))
                (idx1 vpn))) (idx2 vpn)
            (PageTableEntry.new ppn (flags ||| PTE_V)), s.fa⟩ := by
        unfold PageTable.map
        rw [hcreate]
        simp [hleafinv]
      have hr0 : (⟨memUpd s.mem
          (PageTableEntry.ppn
            (s.mem (PageTableEntry.ppn (s.mem root (idx0 vpn)))
              (idx1 vpn))) (idx2 vpn)
          (PageTableEntry.new ppn (flags ||| PTE_V)), s.fa⟩ : Mach).mem
          root (idx0 vpn) = s.mem root (idx0 vpn) := by
        show memUpd s.mem _ (idx2 vpn) _ root (idx0 vpn) = _
        exact memUpd_frame_ne _ _ _ _ _ _ (Ne.symm hp2root)
      have hr1 : (⟨memUpd s.mem
          (PageTableEntry.ppn
            (s.mem (PageTableEntry.ppn (s.mem root (idx0 vpn)))
              (idx1 vpn))) (idx2 vpn)
          (PageTableEntry.new ppn (flags ||| PTE_V)), s.fa⟩ : Mach).mem
          (PageTableEntry.ppn (s.mem root (idx0 vpn))) (idx1 vpn) =
          s.mem (PageTableEntry.ppn (s.mem root (idx0 vpn)))
            (idx1 vpn) := by
        show memUpd s.mem _ (idx2 vpn) _
          (PageTableEntry.ppn (s.mem root (idx0 vpn))) (idx1 vpn) = _
        exact memUpd_frame_ne _ _ _ _ _ _ (Ne.symm hp2p1)
      have hrleaf : (⟨memUpd s.mem
          (PageTableEntry.ppn
            (s.mem (PageTableEntry.ppn (s.mem root (idx0 vpn)))
              (idx1 vpn))) (idx2 vpn)
          (PageTableEntry.new ppn (flags ||| PTE_V)), s.fa⟩ : Mach).mem
          (PageTableEntry.ppn
            (s.mem (PageTableEntry.ppn (s.mem root (idx0 vpn)))
              (idx1 vpn))) (idx2 vpn) =
          PageTableEntry.new ppn (flags ||| PTE_V) :=
        memUpd_same _ _ _ _
      obtain ⟨htr1, s2, hun, htr2⟩ :=
        translate_unmap_of_reads _ root vpn
          (PageTableEntry.ppn (s.mem root (idx0 vpn)))
          (PageTableEntry.ppn
            (s.mem (PageTableEntry.ppn (s.mem root (idx0 vpn)))
              (idx1 vpn))) _ _ _
          hr0 hv0 rfl
          hr1 hv1 rfl
          hrleaf hnewvalid hp2root hp2p1
      exact ⟨_, hmap, htr1, hnewppn, hnewflags, hand, s2, hun, htr2,
        is_valid_zero⟩

/-- C1 counterexample to the claim as stated: on a fresh machine
(`mem` all-zero, allocator over `[1, 30)`), `map(0, 5, R)` then
`unmap(0)` leaves `translate(0)` returning `some 0` (a copy of the
cleared, invalid leaf PTE) — the claim says it returns `None`. -/
theorem page_table_unmap_counterexample :
    (PageTable.map ⟨fun _ _ => 0, ⟨1, 30, []⟩⟩ 0 0 5 2).bind
        (fun s1 => (PageTable.unmap s1 0 0).map
          (fun s2 => PageTable.translate s2 0 0)) = some (some 0) ∧
    some (0 : Nat) ≠ (none : Option Nat) := by
  exact ⟨by decide, by simp⟩

theorem page_table_map_translate_unmap_witness :
    PTInv ⟨fun _ _ => 0, ⟨1, 30, []⟩⟩ 0 ∧
    (∃ s1, PageTable.map ⟨fun _ _ => 0, ⟨1, 30, []⟩⟩ 0 0 5 2 = some s1 ∧
      PageTable.translate s1 0 0 =
        some (PageTableEntry.new 5 (2 ||| PTE_V)) ∧
      PageTableEntry.ppn (PageTableEntry.new 5 (2 ||| PTE_V)) = 5 ∧
      PageTableEntry.flags (PageTableEntry.new 5 (2 ||| PTE_V)) =
        2 ||| PTE_V ∧
      (2 ||| PTE_V) &&&
        PageTableEntry.flags (PageTableEntry.new 5 (2 ||| PTE_V)) =
        2 ||| PTE_V ∧
      ∃ s2, PageTable.unmap s1 0 0 = some s2 ∧
        PageTable.translate s2 0 0 = some 0 ∧
        PageTableEntry.is_valid 0 = false) := by
  have hfind : PageTable.find_pte ⟨fun _ _ => 0, ⟨1, 30, []⟩⟩ 0 0 = none :=
    by decide
  have hinv : PTInv ⟨fun _ _ => 0, ⟨1, 30, []⟩⟩ 0 := by
    refine ⟨by decide, by decide, List.nodup_nil, by simp,
      by simp [InPool], ?_, ?_, ?_, ?_⟩
    all_goals
      intros
      simp_all [PageTableEntry.is_valid]
  refine ⟨hinv, page_table_map_translate_unmap _ 0 0 5 2 hinv (by decide)
    (by decide) ?_ (by decide)⟩
  intro p i hh
  rw [hfind] at hh
  cases hh

/-! ## Block cache (src/easy-fs/src/block_cache.rs)

Only the manager's queue is claim-relevant.  Each queue entry records
the cached `block_id` and the `Arc` strong count of its
`Arc<Mutex<BlockCache>>` (the manager's own copy counts, so an entry no
caller still holds has count exactly 1).  The 512-byte buffer contents
are not inspected by the claim; whether the device was read
(`BlockCache::new` calls `read_block`) is reported as a `Bool`. -/

structure CacheEntry where
  block_id : Nat
  refs : Nat
deriving DecidableEq

def BLOCK_CACHE_SIZE : Nat := 16

/-- The hit path: `queue.iter().find(|pair| pair.0 == block_id)` plus
`Arc::clone` — bump the strong count of the first entry with this id;
`none` when no entry matches. -/
def hitBump : List CacheEntry → Nat → Option (List CacheEntry)
  | [], _ => none
  | e :: rest, bid =>
    if e.block_id = bid then some ({ e with refs := e.refs + 1 } :: rest)
    else (hitBump rest bid).map (fun l => e :: l)

/-- The eviction scan: find the first (earliest-enqueued) entry with
strong count exactly 1 and `drain` it; `none` when every entry is still
held elsewhere. -/
def evictFirst : List CacheEntry → Option (List CacheEntry)
  | [] => none
  | e :: rest =>
    if e.refs = 1 then some rest
    else (evictFirst rest).map (fun l => e :: l)

/-- `BlockCacheManager::get_block_cache`: hit, or (evicting when the
queue holds `BLOCK_CACHE_SIZE` entries) read the block from the device
into a fresh entry pushed at the tail.  `none` is the
"Run out of BlockCache!" panic.  A fresh entry's strong count is 2: the
manager's copy plus the handle returned to the caller. -/
def BlockCacheManager.get_block_cache (queue : List CacheEntry)
    (block_id : Nat) : Option (List CacheEntry × Bool) :=
  match hitBump queue block_id with
  | some q => some (q, false)
  | none =>
    if queue.length = BLOCK_CACHE_SIZE then
      match evictFirst queue with
      | none => none
      | some q => some (q ++ [⟨block_id, 2⟩], true)
    else some (queue ++ [⟨block_id, 2⟩], true)

theorem hitBump_none (q : List CacheEntry) (bid : Nat)
    (h : ∀ e ∈ q, e.block_id ≠ bid) : hitBump q bid = none := by
  induction q with
  | nil => rfl
  | cons a rest ih =>
    unfold hitBump
    rw [if_neg (h a (List.mem_cons_self a rest))]
    rw [ih (fun e he => h e (List.mem_cons_of_mem a he))]
    rfl

theorem hitBump_found (q : List CacheEntry) (bid : Nat) :
    ∀ i e, q[i]? = some e → e.block_id = bid →
      (∀ f ∈ q.take i, f.block_id ≠ bid) →
      hitBump q bid = some (q.set i ⟨e.block_id, e.refs + 1⟩) := by
  induction q with
  | nil =>
    intro i e h
    simp at h
  | cons a rest ih =>
    intro i e hget hbid hpre
    cases i with
    | zero =>
      simp only [List.getElem?_cons_zero, Option.some.injEq] at hget
      subst hget
      unfold hitBump
      rw [if_pos hbid]
      rfl
    | succ i =>
      have hhead : a.block_id ≠ bid := by
        apply hpre a
        rw [List.take_succ_cons]
        exact List.mem_cons_self _ _
      unfold hitBump
      rw [if_neg hhead]
      rw [ih i e (by simpa using hget) hbid (fun f hf => hpre f (by
        rw [List.take_succ_cons]
        exact List.mem_cons_of_mem a hf))]
      rfl

theorem evictFirst_none (q : List CacheEntry)
    (h : ∀ e ∈ q, e.refs ≠ 1) : evictFirst q = none := by
  induction q with
  | nil => rfl
  | cons a rest ih =>
    unfold evictFirst
    rw [if_neg (h a (List.mem_cons_self a rest))]
    rw [ih (fun e he => h e (List.mem_cons_of_mem a he))]
    rfl

theorem evictFirst_found (q : List CacheEntry) :
    ∀ j f, q[j]? = some f → f.refs = 1 →
      (∀ g ∈ q.take j, g.refs ≠ 1) →
      evictFirst q = some (q.eraseIdx j) := by
  induction q with
  | nil =>
    intro j f h
    simp at h
  | cons a rest ih =>
    intro j f hget hrefs hpre
    cases j with
    | zero =>
      simp only [List.getElem?_cons_zero, Option.some.injEq] at hget
      subst hget
      unfold evictFirst
      rw [if_pos hrefs]
      rfl
    | succ j =>
      have hhead : a.refs ≠ 1 := by
        apply hpre a
        rw [List.take_succ_cons]
        exact List.mem_cons_self _ _
      unfold evictFirst
      rw [if_neg hhead]
      rw [ih j f (by simpa using hget) hrefs (fun g hg => hpre g (by
        rw [List.take_succ_cons]
        exact List.mem_cons_of_mem a hg))]
      rfl

/-- C6: `get_block_cache` on a hit returns a new shared handle to the
already-cached entry (strong count bumped) without reading the device;
on a miss with exactly 16 entries it first drops the earliest-enqueued
entry whose strong count is exactly 1 — panicking if none exists — then
reads the block from the device into a fresh entry enqueued at the
tail. -/
theorem get_block_cache_spec (queue : List CacheEntry) (bid : Nat) :
    (∀ i e, queue[i]? = some e → e.block_id = bid →
      (∀ f ∈ queue.take i, f.block_id ≠ bid) →
      BlockCacheManager.get_block_cache queue bid =
        some (queue.set i ⟨e.block_id, e.refs + 1⟩, false)) ∧
    ((∀ e ∈ queue, e.block_id ≠ bid) → queue.length = BLOCK_CACHE_SIZE →
      ∀ j f, queue[j]? = some f → f.refs = 1 →
        (∀ g ∈ queue.take j, g.refs ≠ 1) →
        BlockCacheManager.get_block_cache queue bid =
          some (queue.eraseIdx j ++ [⟨bid, 2⟩], true)) ∧
    ((∀ e ∈ queue, e.block_id ≠ bid) → queue.length = BLOCK_CACHE_SIZE →
      (∀ e ∈ queue, e.refs ≠ 1) →
      BlockCacheManager.get_block_cache queue bid = none) := by
  refine ⟨?_, ?_, ?_⟩
  · intro i e hget hbid hpre
    unfold BlockCacheManager.get_block_cache
    rw [hitBump_found queue bid i e hget hbid hpre]
  · intro hmiss hlen j f hget hrefs hpre
    unfold BlockCacheManager.get_block_cache
    rw [hitBump_none queue bid hmiss]
    simp only [if_pos hlen]
    rw [evictFirst_found queue j f hget hrefs hpre]
  · intro hmiss hlen hpinned
    unfold BlockCacheManager.get_block_cache
    rw [hitBump_none queue bid hmiss]
    simp only [if_pos hlen]
    rw [evictFirst_none queue hpinned]

theorem get_block_cache_spec_witness :
    ((∀ e ∈ ([⟨100, 2⟩, ⟨101, 2⟩, ⟨102, 1⟩, ⟨103, 2⟩, ⟨104, 2⟩, ⟨105, 2⟩,
        ⟨106, 2⟩, ⟨107, 2⟩, ⟨108, 2⟩, ⟨109, 2⟩, ⟨110, 2⟩, ⟨111, 2⟩,
        ⟨112, 2⟩, ⟨113, 2⟩, ⟨114, 2⟩, ⟨115, 2⟩] : List CacheEntry),
        e.block_id ≠ 999)) ∧
    BlockCacheManager.get_block_cache
      [⟨100, 2⟩, ⟨101, 2⟩, ⟨102, 1⟩, ⟨103, 2⟩, ⟨104, 2⟩, ⟨105, 2⟩,
       ⟨106, 2⟩, ⟨107, 2⟩, ⟨108, 2⟩, ⟨109, 2⟩, ⟨110, 2⟩, ⟨111, 2⟩,
       ⟨112, 2⟩, ⟨113, 2⟩, ⟨114, 2⟩, ⟨115, 2⟩] 999 =
      some (([⟨100, 2⟩, ⟨101, 2⟩, ⟨102, 1⟩, ⟨103, 2⟩, ⟨104, 2⟩, ⟨105, 2⟩,
        ⟨106, 2⟩, ⟨107, 2⟩, ⟨108, 2⟩, ⟨109, 2⟩, ⟨110, 2⟩, ⟨111, 2⟩,
        ⟨112, 2⟩, ⟨113, 2⟩, ⟨114, 2⟩, ⟨115, 2⟩] : List CacheEntry).eraseIdx 2
        ++ [⟨999, 2⟩], true) :=
  ⟨by decide,
   (get_block_cache_spec _ 999).2.1 (by decide) (by decide) 2 ⟨102, 1⟩
     (by decide) (by decide) (by decide)⟩

/-! ## Bitmap allocator (src/easy-fs/src/bitmap.rs)

The bitmap region of the disk is modelled at the granularity the code
manipulates: `d b w` is the `w`-th `u64` word (`w < 64`) of the
`BitmapBlock` held in absolute block `b`.  The code reads and writes
those words through `get_block_cache(..).modify`, which on this state is
the identity indirection (C7 does not concern cache coherence). -/

def BLOCK_SZ : Nat := 512

def BLOCK_BITS : Nat := BLOCK_SZ * 8

def U64_MAX : Nat := 2 ^ 64 - 1

structure Bitmap where
  start_block_id : Nat
  blocks : Nat

/-- Write one `u64` word of the bitmap region. -/
def wordUpd (d : Nat → Nat → Nat) (b w v : Nat) : Nat → Nat → Nat :=
  fun b' w' => if b' = b ∧ w' = w then v else d b' w'

/-- `u64::trailing_ones` (used to pick the lowest clear bit), computed
with structural fuel (`fuel ≥ v` suffices, and `trailing_ones` passes
`v` itself). -/
def trailingOnesAux : Nat → Nat → Nat
  | 0, _ => 0
  | fuel + 1, v => if v % 2 = 1 then trailingOnesAux fuel (v / 2) + 1 else 0

def trailing_ones (v : Nat) : Nat := trailingOnesAux v v

/-- First index in `[st, st + n)` satisfying `p` (the
`iter().enumerate().find(..)` scans). -/
def scanIdx (p : Nat → Bool) : Nat → Nat → Option Nat
  | _, 0 => none
  | st, n + 1 => if p st then some st else scanIdx p (st + 1) n

/-- Within one `BitmapBlock`: the first of the 64 `u64` words that is
not `u64::MAX`. -/
def findFreeWord (d : Nat → Nat → Nat) (blk : Nat) : Option Nat :=
  scanIdx (fun w => decide (d blk w ≠ U64_MAX)) 0 64

/-- `Bitmap::alloc`: scan the region's blocks in order; in the first
block holding a non-full word, set that word's lowest clear bit
(`trailing_ones`) and return
`block_idx * BLOCK_BITS + bits64_pos * 64 + inner_pos`. -/
def Bitmap.alloc (bm : Bitmap) (d : Nat → Nat → Nat) :
    Option (Nat × (Nat → Nat → Nat)) :=
  match scanIdx (fun b => (findFreeWord d (bm.start_block_id + b)).isSome)
      0 bm.blocks with
  | none => none
  | some b =>
    match findFreeWord d (bm.start_block_id + b) with
    | none => none
    | some w =>
      some (b * BLOCK_BITS + w * 64 + trailing_ones (d (bm.start_block_id + b) w),
        wordUpd d (bm.start_block_id + b) w
          (d (bm.start_block_id + b) w |||
            (1 <<< trailing_ones (d (bm.start_block_id + b) w))))

/-- `decomposition(bit)`: `(bit / BLOCK_BITS, rem / 64, rem % 64)`. -/
def decomposition (bit : Nat) : Nat × Nat × Nat :=
  (bit / BLOCK_BITS, bit % BLOCK_BITS / 64, bit % BLOCK_BITS % 64)

/-- `Bitmap::dealloc`: the bit must currently be 1
(`assert!(word & (1 << inner) > 0)`, `none` = the panic); then
`word -= 1 << inner`. -/
def Bitmap.dealloc (bm : Bitmap) (d : Nat → Nat → Nat) (bit : Nat) :
    Option (Nat → Nat → Nat) :=
  if 0 < d (bm.start_block_id + (decomposition bit).1)
      (decomposition bit).2.1 &&& (1 <<< (decomposition bit).2.2) then
    some (wordUpd d (bm.start_block_id + (decomposition bit).1)
      (decomposition bit).2.1
      (d (bm.start_block_id + (decomposition bit).1)
        (decomposition bit).2.1 - (1 <<< (decomposition bit).2.2)))
  else none

/-- Bit `i` of the bitmap region, as the code's own decomposition reads
it. -/
def bitSet (bm : Bitmap) (d : Nat → Nat → Nat) (i : Nat) : Prop :=
  (d (bm.start_block_id + i / BLOCK_BITS) (i % BLOCK_BITS / 64)).testBit
    (i % 64) = true

/-! ### Lemmas about `trailing_ones` and `scanIdx` -/

theorem trailingOnesAux_spec : ∀ fuel v, v ≤ fuel →
    v.testBit (trailingOnesAux fuel v) = false ∧
    ∀ j < trailingOnesAux fuel v, v.testBit j = true := by
  intro fuel
  induction fuel with
  | zero =>
    intro v hv
    have hv0 : v = 0 := by omega
    subst hv0
    exact ⟨by simp, by simp [trailingOnesAux]⟩
  | succ fuel ih =>
    intro v hv
    by_cases h : v % 2 = 1
    · have heq : trailingOnesAux (fuel + 1) v =
          trailingOnesAux fuel (v / 2) + 1 := by
        rw [trailingOnesAux, if_pos h]
      obtain ⟨ih1, ih2⟩ := ih (v / 2) (by omega)
      rw [heq]
      constructor
      · rw [Nat.testBit_add_one]
        exact ih1
      · intro j hj
        cases j with
        | zero =>
          simp only [Nat.testBit_zero]
          simp [h]
        | succ j =>
          rw [Nat.testBit_add_one]
          exact ih2 j (by omega)
    · have heq : trailingOnesAux (fuel + 1) v = 0 := by
        rw [trailingOnesAux, if_neg h]
      rw [heq]
      constructor
      · simp only [Nat.testBit_zero]
        simp
        omega
      · intro j hj
        omega

theorem trailing_ones_spec (v : Nat) :
    v.testBit (trailing_ones v) = false ∧
    ∀ j < trailing_ones v, v.testBit j = true :=
  trailingOnesAux_spec v v (Nat.le_refl v)

theorem trailing_ones_lt_64 {v : Nat} (hv : v < 2 ^ 64)
    (hne : v ≠ U64_MAX) : trailing_ones v < 64 := by
  by_contra hge
  push_neg at hge
  have hall : ∀ j < 64, v.testBit j = true :=
    fun j hj => (trailing_ones_spec v).2 j (by omega)
  apply hne
  apply Nat.eq_of_testBit_eq
  intro j
  by_cases hj : j < 64
  · rw [hall j hj]
    unfold U64_MAX
    rw [Nat.testBit_two_pow_sub_one]
    simp [hj]
  · have hvj : v.testBit j = false :=
      Nat.testBit_lt_two_pow (lt_of_lt_of_le hv
        (Nat.pow_le_pow_right (by norm_num) (by omega)))
    rw [hvj]
    unfold U64_MAX
    rw [Nat.testBit_two_pow_sub_one]
    simp [hj]

theorem scanIdx_some (p : Nat → Bool) : ∀ n st i,
    scanIdx p st n = some i →
    st ≤ i ∧ i < st + n ∧ p i = true ∧
      ∀ j, st ≤ j → j < i → p j = false := by
  intro n
  induction n with
  | zero =>
    intro st i h
    cases h
  | succ n ih =>
    intro st i h
    cases hp : p st with
    | true =>
      rw [scanIdx, hp] at h
      simp only [if_true] at h
      cases h
      exact ⟨Nat.le_refl st, by omega, hp, fun j h1 h2 => by omega⟩
    | false =>
      rw [scanIdx, hp] at h
      simp only [Bool.false_eq_true, if_false] at h
      obtain ⟨h1, h2, h3, h4⟩ := ih (st + 1) i h
      refine ⟨by omega, by omega, h3, fun j hj1 hj2 => ?_⟩
      by_cases hjst : j = st
      · rw [hjst]
        exact hp
      · exact h4 j (by omega) hj2

theorem scanIdx_none (p : Nat → Bool) : ∀ n st,
    scanIdx p st n = none ↔ ∀ j, st ≤ j → j < st + n → p j = false := by
  intro n
  induction n with
  | zero =>
    intro st
    constructor
    · intro _ j h1 h2
      omega
    · intro _
      rfl
  | succ n ih =>
    intro st
    cases hp : p st with
    | true =>
      rw [scanIdx, hp]
      simp only [if_true]
      constructor
      · intro h
        cases h
      · intro h
        have := h st (Nat.le_refl st) (by omega)
        rw [hp] at this
        cases this
    | false =>
      rw [scanIdx, hp]
      simp only [Bool.false_eq_true, if_false]
      rw [ih (st + 1)]
      constructor
      · intro h j h1 h2
        by_cases hjst : j = st
        · rw [hjst]
          exact hp
        · exact h j (by omega) (by omega)
      · intro h j h1 h2
        exact h j (by omega) (by omega)

theorem testBit_sub_two_pow_self {v i : Nat} (h : v.testBit i = true) :
    (v - 2 ^ i).testBit i = false := by
  have hge : 2 ^ i ≤ v := Nat.testBit_implies_ge h
  have hq : v / 2 ^ i % 2 = 1 := by
    rw [Nat.testBit_to_div_mod] at h
    simpa using h
  have hdiv : (v - 2 ^ i) / 2 ^ i = v / 2 ^ i - 1 := by
    have h1 : 2 ^ i * 1 ≤ v := by simpa using hge
    simpa using Nat.sub_mul_div v (2 ^ i) 1 h1
  rw [Nat.testBit_to_div_mod, hdiv]
  simp
  omega

theorem pos_and_shift_iff_testBit (x k : Nat) :
    (0 < x &&& (1 <<< k)) ↔ x.testBit k = true := by
  rw [Nat.one_shiftLeft, Nat.and_two_pow]
  cases h : x.testBit k with
  | false => simp
  | true => simp [Nat.pos_pow_of_pos]

/-- C7: `Bitmap::alloc` returns `Some` of the lowest-indexed clear bit
of the region (`block_idx·4096 + word·64 + bit`) and sets it, or `None`
exactly when all `num_blocks · 4096` bits are set; `Bitmap::dealloc(bit)`
panics when the bit is currently 0 (double free) and otherwise clears
it. -/
theorem bitmap_alloc_dealloc_spec (bm : Bitmap) (d : Nat → Nat → Nat)
    (hu64 : ∀ b w, d b w < 2 ^ 64) :
    (∀ i d', bm.alloc d = some (i, d') →
      i < bm.blocks * BLOCK_BITS ∧
      ¬ bitSet bm d i ∧
      (∀ j < i, bitSet bm d j) ∧
      bitSet bm d' i ∧
      (∀ j, j ≠ i → (bitSet bm d' j ↔ bitSet bm d j))) ∧
    (bm.alloc d = none ↔ ∀ i < bm.blocks * BLOCK_BITS, bitSet bm d i) ∧
    (∀ bit, bm.dealloc d bit = none ↔ ¬ bitSet bm d bit) ∧
    (∀ bit d', bm.dealloc d bit = some d' →
      bitSet bm d bit ∧ ¬ bitSet bm d' bit) := by
  have hBB : BLOCK_BITS = 4096 := rfl
  -- every word of a block with no free word is u64::MAX
  have hfullblock : ∀ blk, findFreeWord d blk = none →
      ∀ w' < 64, d blk w' = U64_MAX := by
    intro blk hnone w' hw'
    have := (scanIdx_none (fun w => decide (d blk w ≠ U64_MAX)) 64 0).mp
      hnone w' (Nat.zero_le w') (by omega)
    simpa using this
  have hmaxbit : ∀ k < 64, U64_MAX.testBit k = true := by
    intro k hk
    unfold U64_MAX
    rw [Nat.testBit_two_pow_sub_one]
    simp [hk]
  refine ⟨?_, ⟨?_, ?_⟩, ?_, ?_⟩
  · -- alloc success
    intro i d' halloc
    unfold Bitmap.alloc at halloc
    cases hscan : scanIdx
        (fun b => (findFreeWord d (bm.start_block_id + b)).isSome)
        0 bm.blocks with
    | none =>
      rw [hscan] at halloc
      cases halloc
    | some b =>
      rw [hscan] at halloc
      obtain ⟨-, hblt, hbsome, hbprev⟩ := scanIdx_some _ _ _ _ hscan
      cases hfw : findFreeWord d (bm.start_block_id + b) with
      | none =>
        rw [hfw] at hbsome
        cases hbsome
      | some w =>
        simp only [hfw, Option.some.injEq, Prod.mk.injEq] at halloc
        obtain ⟨hi, hd'⟩ := halloc
        obtain ⟨-, hwlt, hwne, hwprev⟩ := scanIdx_some _ _ _ _ hfw
        have hwlt64 : w < 64 := by omega
        have hvne : d (bm.start_block_id + b) w ≠ U64_MAX := by
          simpa using hwne
        have hv64 := hu64 (bm.start_block_id + b) w
        have hinner : trailing_ones (d (bm.start_block_id + b) w) < 64 :=
          trailing_ones_lt_64 hv64 hvne
        obtain ⟨hbit0, hbits⟩ :=
          trailing_ones_spec (d (bm.start_block_id + b) w)
        have hmaxwords : ∀ w' < w,
            d (bm.start_block_id + b) w' = U64_MAX := by
          intro w' hw'
          have := hwprev w' (Nat.zero_le w') hw'
          simpa using this
        have hfullprev : ∀ b' < b, ∀ w' < 64,
            d (bm.start_block_id + b') w' = U64_MAX := by
          intro b' hb' w' hw'
          have hp := hbprev b' (Nat.zero_le b') hb'
          cases hopt : findFreeWord d (bm.start_block_id + b') with
          | none => exact hfullblock _ hopt w' hw'
          | some x =>
            rw [hopt] at hp
            cases hp
        subst hi hd'
        rw [hBB]
        have hi1 : (b * 4096 + w * 64 +
            trailing_ones (d (bm.start_block_id + b) w)) / 4096 = b := by
          omega
        have hi2 : (b * 4096 + w * 64 +
            trailing_ones (d (bm.start_block_id + b) w)) % 4096 / 64 = w := by
          omega
        have hi3 : (b * 4096 + w * 64 +
            trailing_ones (d (bm.start_block_id + b) w)) % 64 =
            trailing_ones (d (bm.start_block_id + b) w) := by
          omega
        refine ⟨by omega, ?_, ?_, ?_, ?_⟩
        · -- the returned bit is clear in d
          unfold bitSet
          rw [hBB, hi1, hi2, hi3, hbit0]
          simp
        · -- all lower-indexed bits are set in d
          intro j hj
          unfold bitSet
          rw [hBB]
          have hj64 : j % 4096 / 64 < 64 := by omega
          by_cases hb1 : j / 4096 < b
          · rw [hfullprev (j / 4096) hb1 (j % 4096 / 64) hj64]
            exact hmaxbit (j % 64) (by omega)
          · have hbeq : j / 4096 = b := by omega
            by_cases hw1 : j % 4096 / 64 < w
            · rw [hbeq, hmaxwords (j % 4096 / 64) hw1]
              exact hmaxbit (j % 64) (by omega)
            · have hweq : j % 4096 / 64 = w := by omega
              have hjk : j % 64 <
                  trailing_ones (d (bm.start_block_id + b) w) := by
                omega
              rw [hbeq, hweq]
              exact hbits (j % 64) hjk
        · -- the returned bit is set in the new state
          unfold bitSet
          rw [hBB, hi1, hi2, hi3]
          simp [wordUpd, Nat.testBit_or, Nat.one_shiftLeft,
            Nat.testBit_two_pow_self]
        · -- every other bit is unchanged
          intro j hj
          unfold bitSet
          rw [hBB]
          unfold wordUpd
          by_cases hc : bm.start_block_id + j / 4096 =
              bm.start_block_id + b ∧ j % 4096 / 64 = w
          · have hbeq : j / 4096 = b := by omega
            have hneq : j % 64 ≠
                trailing_ones (d (bm.start_block_id + b) w) := by
              intro he
              apply hj
              omega
            rw [if_pos hc, hc.1, hc.2]
            rw [Nat.testBit_or, Nat.one_shiftLeft,
              Nat.testBit_two_pow_of_ne (fun he => hneq he.symm)]
            simp
          · rw [if_neg hc]
  · -- alloc = none → all bits set
    intro halloc i hi
    unfold Bitmap.alloc at halloc
    cases hscan : scanIdx
        (fun b => (findFreeWord d (bm.start_block_id + b)).isSome)
        0 bm.blocks with
    | some b =>
      rw [hscan] at halloc
      obtain ⟨-, -, hbsome, -⟩ := scanIdx_some _ _ _ _ hscan
      cases hfw : findFreeWord d (bm.start_block_id + b) with
      | none =>
        rw [hfw] at hbsome
        cases hbsome
      | some w =>
        simp only [hfw] at halloc
        cases halloc
    | none =>
      rw [hBB] at hi
      have hball := (scanIdx_none _ _ _).mp hscan
      have hblk : (findFreeWord d
          (bm.start_block_id + i / 4096)).isSome = false := by
        have := hball (i / 4096) (Nat.zero_le _) (by omega)
        simpa using this
      have hnone : findFreeWord d (bm.start_block_id + i / 4096) = none := by
        cases hopt : findFreeWord d (bm.start_block_id + i / 4096) with
        | none => rfl
        | some x =>
          rw [hopt] at hblk
          cases hblk
      unfold bitSet
      rw [hBB]
      rw [hfullblock _ hnone (i % 4096 / 64) (by omega)]
      exact hmaxbit (i % 64) (by omega)
  · -- all bits set → alloc = none
    intro hall
    unfold Bitmap.alloc
    have hscan : scanIdx
        (fun b => (findFreeWord d (bm.start_block_id + b)).isSome)
        0 bm.blocks = none := by
      rw [scanIdx_none]
      intro b' _ hb'
      have hnone : findFreeWord d (bm.start_block_id + b') = none := by
        unfold findFreeWord
        rw [scanIdx_none]
        intro w' _ hw'
        have hword : d (bm.start_block_id + b') w' = U64_MAX := by
          apply Nat.eq_of_testBit_eq
          intro k
          by_cases hk : k < 64
          · rw [hmaxbit k hk]
            have hlt : b' * 4096 + w' * 64 + k < bm.blocks * 4096 := by
              omega
            have hset := hall (b' * 4096 + w' * 64 + k)
              (by rw [hBB]; exact hlt)
            unfold bitSet at hset
            rw [hBB] at hset
            have he1 : (b' * 4096 + w' * 64 + k) / 4096 = b' := by omega
            have he2 : (b' * 4096 + w' * 64 + k) % 4096 / 64 = w' := by
              omega
            have he3 : (b' * 4096 + w' * 64 + k) % 64 = k := by omega
            rw [he1, he2, he3] at hset
            exact hset
          · rw [Nat.testBit_lt_two_pow (lt_of_lt_of_le (hu64 _ _)
              (Nat.pow_le_pow_right (by norm_num) (by omega)))]
            unfold U64_MAX
            rw [Nat.testBit_two_pow_sub_one]
            simp [hk]
        simp [hword]
      rw [hnone]
      rfl
    rw [hscan]
  · -- dealloc panics iff the bit is clear
    intro bit
    unfold Bitmap.dealloc
    simp only [decomposition]
    have hip : bit % BLOCK_BITS % 64 = bit % 64 := by
      rw [hBB]
      omega
    rw [hip]
    unfold bitSet
    by_cases hc : 0 < d (bm.start_block_id + bit / BLOCK_BITS)
        (bit % BLOCK_BITS / 64) &&& (1 <<< (bit % 64))
    · rw [if_pos hc]
      rw [pos_and_shift_iff_testBit] at hc
      simp [hc]
    · rw [if_neg hc]
      rw [pos_and_shift_iff_testBit] at hc
      simp [hc]
  · -- successful dealloc requires the bit set and clears it
    intro bit d' hde
    unfold Bitmap.dealloc at hde
    simp only [decomposition] at hde
    have hip : bit % BLOCK_BITS % 64 = bit % 64 := by
      rw [hBB]
      omega
    rw [hip] at hde
    by_cases hc : 0 < d (bm.start_block_id + bit / BLOCK_BITS)
        (bit % BLOCK_BITS / 64) &&& (1 <<< (bit % 64))
    · rw [if_pos hc] at hde
      simp only [Option.some.injEq] at hde
      subst hde
      rw [pos_and_shift_iff_testBit] at hc
      refine ⟨hc, ?_⟩
      unfold bitSet wordUpd
      simp [Nat.one_shiftLeft, testBit_sub_two_pow_self hc]
    · rw [if_neg hc] at hde
      cases hde

theorem bitmap_alloc_dealloc_spec_witness :
    (∀ b w : Nat, (fun _ _ => 3 : Nat → Nat → Nat) b w < 2 ^ 64) ∧
    (2 < 1 * BLOCK_BITS ∧
     ¬ bitSet ⟨0, 1⟩ (fun _ _ => 3) 2 ∧
     (∀ j < 2, bitSet ⟨0, 1⟩ (fun _ _ => 3) j) ∧
     bitSet ⟨0, 1⟩ (wordUpd (fun _ _ => 3) 0 0 (3 ||| (1 <<< 2))) 2 ∧
     (∀ j, j ≠ 2 →
       (bitSet ⟨0, 1⟩ (wordUpd (fun _ _ => 3) 0 0 (3 ||| (1 <<< 2))) j ↔
        bitSet ⟨0, 1⟩ (fun _ _ => 3) j))) := by
  have hu : ∀ b w : Nat, (fun _ _ => 3 : Nat → Nat → Nat) b w < 2 ^ 64 := by
    intro b w
    show (3 : Nat) < 2 ^ 64
    norm_num
  refine ⟨hu, ?_⟩
  exact (bitmap_alloc_dealloc_spec ⟨0, 1⟩ (fun _ _ => 3) hu).1 2
    (wordUpd (fun _ _ => 3) 0 0 (3 ||| (1 <<< 2))) rfl

/-! ## EasyFileSystem::create (src/easy-fs/src/efs.rs)

`layout.rs` (SuperBlock, DiskInode) is not under src/; those two
structures are modelled from the spec.  The disk carries one typed view
per region `create` touches: the super-block cell of block 0, the
`u64`-word view the bitmaps use, and the packed disk-inode view of the
inode area (`512 / 128 = 4` inodes per block).  Zeroing a block resets
each typed view of it; `block_cache_sync_all` (a flush) is the identity
on this state. -/

def EFS_MAGIC : Nat := 0x3b800000

/-- Modelled from the spec (§3, missing layout.rs): the super-block
fields "magic (= 0x3b80 0000), total_blocks, inode_bitmap_blocks,
inode_area_blocks, data_bitmap_blocks, data_area_blocks". -/
structure SuperBlock where
  magic : Nat
  total_blocks : Nat
  inode_bitmap_blocks : Nat
  inode_area_blocks : Nat
  data_bitmap_blocks : Nat
  data_area_blocks : Nat
deriving DecidableEq

/-- Modelled from the spec: `is_valid` checks the magic. -/
def SuperBlock.is_valid (sb : SuperBlock) : Prop := sb.magic = EFS_MAGIC

def zeroSuperBlock : SuperBlock := ⟨0, 0, 0, 0, 0, 0⟩

/-- Modelled from the spec (§3, missing layout.rs): disk inode with
`size`, 28 direct pointers, indirect-1, indirect-2 and a type tag
(File = 0, Directory = 1): 32 little-endian `u32` fields, hence
`sizeof(DiskInode) = 128`. -/
structure DiskInode where
  size : Nat
  direct : Nat → Nat
  indirect1 : Nat
  indirect2 : Nat
  ty : Nat

def DISK_INODE_SIZE : Nat := 128

def DiskInodeType.file : Nat := 0

def DiskInodeType.directory : Nat := 1

/-- Modelled from the spec: `DiskInode::initialize` zeroes the size and
every pointer and sets the type tag. -/
def diskInodeInit (t : Nat) : DiskInode := ⟨0, fun _ => 0, 0, 0, t⟩

def zeroDiskInode : DiskInode := ⟨0, fun _ => 0, 0, 0, 0⟩

structure EfsDisk where
  sb : SuperBlock
  words : Nat → Nat → Nat
  inodes : Nat → Nat → DiskInode

structure EasyFileSystem where
  inode_bitmap : Bitmap
  data_bitmap : Bitmap
  inode_area_start_block : Nat
  data_area_start_block : Nat

/-- `Bitmap::maximum`: `blocks * BLOCK_BITS`. -/
def Bitmap.maximum (bm : Bitmap) : Nat := bm.blocks * BLOCK_BITS

/-- `EasyFileSystem::get_disk_inode_pos` (block id, byte offset within
the block). -/
def EasyFileSystem.get_disk_inode_pos (inode_area_start_block
    inode_id : Nat) : Nat × Nat :=
  (inode_area_start_block + inode_id / (BLOCK_SZ / DISK_INODE_SIZE),
   inode_id % (BLOCK_SZ / DISK_INODE_SIZE) * DISK_INODE_SIZE)

def inodeUpd (f : Nat → Nat → DiskInode) (b s : Nat) (v : DiskInode) :
    Nat → Nat → DiskInode :=
  fun b' s' => if b' = b ∧ s' = s then v else f b' s'

/-- `EasyFileSystem::create`.  The `u32` subtraction
`total_blocks - 1 - inode_total_blocks` is modelled as checked (`none`
standing for the underflow panic); `alloc_inode().unwrap()` and
`assert_eq!(alloc_inode(), 0)` are `none` too. -/
def EasyFileSystem.create (d : EfsDisk)
    (total_blocks inode_bitmap_blocks : Nat) :
    Option (EasyFileSystem × EfsDisk) :=
  let inode_bitmap : Bitmap := ⟨1, inode_bitmap_blocks⟩
  let inode_num := inode_bitmap.maximum
  let inode_area_blocks :=
    (inode_num * DISK_INODE_SIZE + BLOCK_SZ - 1) / BLOCK_SZ
  let inode_total_blocks := inode_bitmap_blocks + inode_area_blocks
  if total_blocks < 1 + inode_total_blocks then none
  else
    let data_total_blocks := total_blocks - 1 - inode_total_blocks
    let data_bitmap_blocks := (data_total_blocks + 4096) / 4097
    let data_area_blocks := data_total_blocks - data_bitmap_blocks
    let data_bitmap : Bitmap :=
      ⟨1 + inode_bitmap_blocks + inode_area_blocks, data_bitmap_blocks⟩
    let efs : EasyFileSystem :=
      ⟨inode_bitmap, data_bitmap, 1 + inode_bitmap_blocks,
        1 + inode_total_blocks + data_bitmap_blocks⟩
    let d0 : EfsDisk :=
      { sb := if 0 < total_blocks then zeroSuperBlock else d.sb,
        words := fun b w => if b < total_blocks then 0 else d.words b w,
        inodes := fun b s =>
          if b < total_blocks then zeroDiskInode else d.inodes b s }
    let d1 : EfsDisk :=
      { d0 with sb := ⟨EFS_MAGIC, total_blocks, inode_bitmap_blocks,
          inode_area_blocks, data_bitmap_blocks, data_area_blocks⟩ }
    match inode_bitmap.alloc d1.words with
    | none => none
    | some (i, w') =>
      if i ≠ 0 then none
      else
        let pos := EasyFileSystem.get_disk_inode_pos
          efs.inode_area_start_block 0
        some (efs, { d1 with
          words := w',
          inodes := inodeUpd d1.inodes pos.1 (pos.2 / DISK_INODE_SIZE)
            (diskInodeInit DiskInodeType.directory) })

theorem scanIdx_start_true (p : Nat → Bool) (st n : Nat)
    (h : p st = true) (hn : 0 < n) : scanIdx p st n = some st := by
  obtain ⟨m, rfl⟩ : ∃ m, n = m + 1 := ⟨n - 1, by omega⟩
  rw [scanIdx, h]
  simp

theorem bitmap_alloc_zeroed (bm : Bitmap) (w : Nat → Nat → Nat)
    (hblocks : 0 < bm.blocks) (hzero : w bm.start_block_id 0 = 0) :
    bm.alloc w = some (0, wordUpd w bm.start_block_id 0 1) := by
  have hfw : findFreeWord w bm.start_block_id = some 0 := by
    unfold findFreeWord
    apply scanIdx_start_true
    · simp only [hzero]
      decide
    · norm_num
  have hscan : scanIdx
      (fun b => (findFreeWord w (bm.start_block_id + b)).isSome)
      0 bm.blocks = some 0 := by
    apply scanIdx_start_true
    · simp only [Nat.add_zero, hfw, Option.isSome_some]
    · exact hblocks
  unfold Bitmap.alloc
  simp only [hscan, Nat.add_zero, hfw, hzero]
  have h1 : trailing_ones 0 = 0 := rfl
  have h2 : (0 : Nat) ||| 1 <<< 0 = 1 := rfl
  simp [h1, h2]

/-- C8: `EasyFileSystem::create` computes `inode_area_blocks` as the
ceiling `⌈4096·IB·sizeof(DiskInode)/512⌉` (= `1024·IB`),
`data_total = total − 1 − IB − IA`,
`data_bitmap_blocks = (data_total + 4096)/4097 = ⌈data_total/4097⌉` and
`data_area_blocks = data_total − DB`; it zeroes every block in
`[0, total)`, initialises the super-block in block 0, and allocates
inode id 0 initialised as a Directory. -/
theorem efs_create_spec (d : EfsDisk) (total_blocks IB : Nat)
    (hIB : 1 ≤ IB) (htot : 1 + IB + 1024 * IB ≤ total_blocks) :
    ∃ efs d', EasyFileSystem.create d total_blocks IB = some (efs, d') ∧
      (Bitmap.maximum ⟨1, IB⟩ * DISK_INODE_SIZE + BLOCK_SZ - 1) / BLOCK_SZ
        = 1024 * IB ∧
      Bitmap.maximum ⟨1, IB⟩ = 4096 * IB ∧
      total_blocks - 1 - IB - 1024 * IB ≤
        4097 * ((total_blocks - 1 - IB - 1024 * IB + 4096) / 4097) ∧
      4097 * ((total_blocks - 1 - IB - 1024 * IB + 4096) / 4097) <
        total_blocks - 1 - IB - 1024 * IB + 4097 ∧
      d'.sb.magic = EFS_MAGIC ∧
      d'.sb.total_blocks = total_blocks ∧
      d'.sb.inode_bitmap_blocks = IB ∧
      d'.sb.inode_area_blocks = 1024 * IB ∧
      d'.sb.data_bitmap_blocks =
        (total_blocks - 1 - IB - 1024 * IB + 4096) / 4097 ∧
      d'.sb.data_area_blocks =
        total_blocks - 1 - IB - 1024 * IB -
          (total_blocks - 1 - IB - 1024 * IB + 4096) / 4097 ∧
      d'.sb.is_valid ∧
      efs.inode_area_start_block = 1 + IB ∧
      d'.words 1 0 = 1 ∧
      d'.inodes (1 + IB) 0 = diskInodeInit DiskInodeType.directory ∧
      (∀ b w, b < total_blocks → ¬ (b = 1 ∧ w = 0) → d'.words b w = 0) ∧
      (∀ b s, b < total_blocks → ¬ (b = 1 + IB ∧ s = 0) →
        d'.inodes b s = zeroDiskInode) := by
  have hBB : BLOCK_BITS = 4096 := rfl
  have hSZ : BLOCK_SZ = 512 := rfl
  have hDI : DISK_INODE_SIZE = 128 := rfl
  have hmax : Bitmap.maximum ⟨1, IB⟩ = 4096 * IB := by
    show (⟨1, IB⟩ : Bitmap).blocks * BLOCK_BITS = 4096 * IB
    simp only [hBB]
    ring
  have hIA : (Bitmap.maximum ⟨1, IB⟩ * DISK_INODE_SIZE + BLOCK_SZ - 1) /
      BLOCK_SZ = 1024 * IB := by
    rw [hmax, hSZ, hDI]
    omega
  have hguard : ¬ (total_blocks < 1 + (IB +
      (Bitmap.maximum ⟨1, IB⟩ * DISK_INODE_SIZE + BLOCK_SZ - 1) /
        BLOCK_SZ)) := by
    rw [hIA]
    omega
  have h1lt : 1 < total_blocks := by omega
  have hzero1 : (fun b w => if b < total_blocks then 0 else d.words b w)
      (⟨1, IB⟩ : Bitmap).start_block_id 0 = 0 := by
    show (if 1 < total_blocks then 0 else d.words 1 0) = 0
    rw [if_pos h1lt]
  have halloc := bitmap_alloc_zeroed ⟨1, IB⟩
    (fun b w => if b < total_blocks then 0 else d.words b w)
    (by show 0 < IB; omega) hzero1
  have hsb1 : (⟨1, IB⟩ : Bitmap).start_block_id = 1 := rfl
  have hz1 : (0 : Nat) / (BLOCK_SZ / DISK_INODE_SIZE) = 0 := rfl
  have hz2 : (0 : Nat) % (BLOCK_SZ / DISK_INODE_SIZE) * DISK_INODE_SIZE /
      DISK_INODE_SIZE = 0 := rfl
  simp only [EasyFileSystem.create]
  rw [if_neg hguard]
  simp only [halloc]
  rw [if_neg (show ¬ ((0 : Nat) ≠ 0) from fun h => h rfl)]
  refine ⟨_, _, rfl, hIA, hmax, by omega, by omega, rfl, rfl, rfl, hIA,
    ?_, ?_, rfl, rfl, ?_, ?_, ?_, ?_⟩
  · -- data_bitmap_blocks field
    show (total_blocks - 1 - (IB + (Bitmap.maximum ⟨1, IB⟩ *
      DISK_INODE_SIZE + BLOCK_SZ - 1) / BLOCK_SZ) + 4096) / 4097 = _
    rw [hIA]
    omega
  · -- data_area_blocks field
    show total_blocks - 1 - (IB + (Bitmap.maximum ⟨1, IB⟩ *
        DISK_INODE_SIZE + BLOCK_SZ - 1) / BLOCK_SZ) -
      (total_blocks - 1 - (IB + (Bitmap.maximum ⟨1, IB⟩ *
        DISK_INODE_SIZE + BLOCK_SZ - 1) / BLOCK_SZ) + 4096) / 4097 = _
    rw [hIA]
    omega
  · -- inode-bitmap bit 0 set: word 0 of block 1 now reads 1
    show wordUpd (fun b w => if b < total_blocks then 0 else d.words b w)
      (⟨1, IB⟩ : Bitmap).start_block_id 0 1 1 0 = 1
    rw [hsb1]
    unfold wordUpd
    rw [if_pos ⟨rfl, rfl⟩]
  · -- root disk inode written as a Directory
    show inodeUpd
      (fun b s => if b < total_blocks then zeroDiskInode else d.inodes b s)
      (1 + IB + 0 / (BLOCK_SZ / DISK_INODE_SIZE))
      (0 % (BLOCK_SZ / DISK_INODE_SIZE) * DISK_INODE_SIZE /
        DISK_INODE_SIZE)
      (diskInodeInit DiskInodeType.directory) (1 + IB) 0 =
      diskInodeInit DiskInodeType.directory
    rw [hz1, hz2]
    unfold inodeUpd
    rw [if_pos ⟨by omega, rfl⟩]
  · -- every other bitmap/data word in [0, total) is zero
    intro b w hb hne
    show wordUpd (fun b w => if b < total_blocks then 0 else d.words b w)
      (⟨1, IB⟩ : Bitmap).start_block_id 0 1 b w = 0
    rw [hsb1]
    unfold wordUpd
    rw [if_neg hne]
    show (if b < total_blocks then 0 else d.words b w) = 0
    rw [if_pos hb]
  · -- every other inode slot in [0, total) is zero
    intro b s hb hne
    show inodeUpd
      (fun b s => if b < total_blocks then zeroDiskInode else d.inodes b s)
      (1 + IB + 0 / (BLOCK_SZ / DISK_INODE_SIZE))
      (0 % (BLOCK_SZ / DISK_INODE_SIZE) * DISK_INODE_SIZE /
        DISK_INODE_SIZE)
      (diskInodeInit DiskInodeType.directory) b s = zeroDiskInode
    rw [hz1, hz2]
    unfold inodeUpd
    rw [if_neg (show ¬ (b = 1 + IB + 0 ∧ s = 0) from by
      rintro ⟨hb1, hs1⟩
      exact hne ⟨by omega, hs1⟩)]
    show (if b < total_blocks then zeroDiskInode else d.inodes b s) =
      zeroDiskInode
    rw [if_pos hb]

theorem efs_create_spec_witness :
    (1 : Nat) ≤ 1 ∧ 1 + 1 + 1024 * 1 ≤ 2000 ∧
    ∃ efs d', EasyFileSystem.create
        ⟨zeroSuperBlock, fun _ _ => 0, fun _ _ => zeroDiskInode⟩ 2000 1
        = some (efs, d') ∧
      (Bitmap.maximum ⟨1, 1⟩ * DISK_INODE_SIZE + BLOCK_SZ - 1) / BLOCK_SZ
        = 1024 * 1 ∧
      Bitmap.maximum ⟨1, 1⟩ = 4096 * 1 ∧
      2000 - 1 - 1 - 1024 * 1 ≤
        4097 * ((2000 - 1 - 1 - 1024 * 1 + 4096) / 4097) ∧
      4097 * ((2000 - 1 - 1 - 1024 * 1 + 4096) / 4097) <
        2000 - 1 - 1 - 1024 * 1 + 4097 ∧
      d'.sb.magic = EFS_MAGIC ∧
      d'.sb.total_blocks = 2000 ∧
      d'.sb.inode_bitmap_blocks = 1 ∧
      d'.sb.inode_area_blocks = 1024 * 1 ∧
      d'.sb.data_bitmap_blocks = (2000 - 1 - 1 - 1024 * 1 + 4096) / 4097 ∧
      d'.sb.data_area_blocks = 2000 - 1 - 1 - 1024 * 1 -
        (2000 - 1 - 1 - 1024 * 1 + 4096) / 4097 ∧
      d'.sb.is_valid ∧
      efs.inode_area_start_block = 1 + 1 ∧
      d'.words 1 0 = 1 ∧
      d'.inodes (1 + 1) 0 = diskInodeInit DiskInodeType.directory ∧
      (∀ b w, b < 2000 → ¬ (b = 1 ∧ w = 0) → d'.words b w = 0) ∧
      (∀ b s, b < 2000 → ¬ (b = 1 + 1 ∧ s = 0) →
        d'.inodes b s = zeroDiskInode) := by
  refine ⟨le_refl 1, by norm_num, ?_⟩
  exact efs_create_spec ⟨zeroSuperBlock, fun _ _ => 0, fun _ _ => zeroDiskInode⟩
    2000 1 (le_refl 1) (by norm_num)

/-! ## MemorySet::from_elf (src/os/src/memory/memory_set.rs)

`MapArea` keeps the `vpn_range` bounds, the `map_type` and the
`map_perm` bits; `data_frames` (frame ownership for `Drop`) and the page
contents written by `copy_data` are outside the page-table model, so
`push`'s `copy_data` step is a no-op here.  `PTEFlags::from_bits` on
`MapPermission` bits is the identity (both use R=2, W=4, X=8, U=16). -/

inductive MapType where
  | identical : MapType
  | framed : MapType
deriving DecidableEq

def MapPermission.R : Nat := 2

def MapPermission.W : Nat := 4

def MapPermission.X : Nat := 8

def MapPermission.U : Nat := 16

structure MapArea where
  start_vpn : Nat
  end_vpn : Nat
  map_type : MapType
  map_perm : Nat
deriving DecidableEq

/-- `MapArea::new`: `start_va.floor()` / `end_va.ceil()` bound the
`vpn_range`; `ceil` underflows (panics) at 0, hence the `Option`. -/
def MapArea.new (start_va end_va : Nat) (mt : MapType) (perm : Nat) :
    Option MapArea :=
  (VirtAddr.ceil end_va).map (fun e =>
    ⟨VirtAddr.floor start_va, e, mt, perm⟩)

/-- `MapArea::map_one`: Identical takes `ppn = vpn`; Framed allocates a
frame (`frame_alloc().unwrap()`); then `page_table.map(vpn, ppn,
PTEFlags::from_bits(map_perm.bits))`. -/
def MapArea.map_one (s : Mach) (root : Nat) (a : MapArea) (vpn : Nat) :
    Option Mach :=
  match a.map_type with
  | MapType.identical => PageTable.map s root vpn vpn a.map_perm
  | MapType.framed =>
    match frame_alloc s with
    | none => none
    | some (f, s1) => PageTable.map s1 root vpn f a.map_perm

/-- `for vpn in self.vpn_range { self.map_one(...) }`, counted down from
`end_vpn - start_vpn`. -/
def mapRange (root : Nat) (a : MapArea) : Nat → Nat → Mach → Option Mach
  | 0, _, s => some s
  | n + 1, vpn, s =>
    match MapArea.map_one s root a vpn with
    | none => none
    | some s1 => mapRange root a n (vpn + 1) s1

/-- `MapArea::map`. -/
def MapArea.map (s : Mach) (root : Nat) (a : MapArea) : Option Mach :=
  mapRange root a (a.end_vpn - a.start_vpn) a.start_vpn s

/-- `MemorySet::map_trampoline`: `page_table.map(TRAMPOLINE.into(),
strampoline.into(), R | X)`; both `.into()`s assert page alignment and
floor. -/
def MemorySet.map_trampoline (s : Mach) (root strampoline : Nat) :
    Option Mach :=
  PageTable.map s root
    (VirtAddr.floor (VirtAddr.from_usize TRAMPOLINE))
    (PhysAddr.floor (PhysAddr.from_usize strampoline))
    (PTE_R ||| PTE_X)

/-- One parsed ELF program header: type tag, `virtual_addr`, `mem_size`,
`file_size`, `offset` and the R/W/X permission flags. -/
structure ProgHeader where
  isLoad : Bool
  vaddr : Nat
  memSize : Nat
  fileSize : Nat
  offset : Nat
  fR : Bool
  fW : Bool
  fX : Bool
deriving DecidableEq

/-- A parsed ELF file: the four magic bytes, the program headers and the
entry point. -/
structure ElfFile where
  magic : List Nat
  phs : List ProgHeader
  entry : Nat
deriving DecidableEq

/-- The `for i in 0..ph_count` loop of `from_elf`: each `Load` header
becomes a Framed `MapArea` over `[vaddr, vaddr + mem_size)` with
permission `U` plus the converted R/W/X bits, pushed (mapped) into the
address space; `max_end_vpn` is updated to that area's range end.
`vaddr + mem_size` is a wrapping u64 sum cast to usize. -/
def loadPhs (root : Nat) : List ProgHeader → Mach → List MapArea → Nat →
    Option (Mach × List MapArea × Nat)
  | [], s, areas, maxVpn => some (s, areas, maxVpn)
  | ph :: rest, s, areas, maxVpn =>
    if ph.isLoad then
      let start_va := VirtAddr.from_usize ph.vaddr
      let end_va := VirtAddr.from_usize ((ph.vaddr + ph.memSize) % USIZE_MOD)
      let map_perm := MapPermission.U |||
        (if ph.fR then MapPermission.R else 0) |||
        (if ph.fW then MapPermission.W else 0) |||
        (if ph.fX then MapPermission.X else 0)
      match MapArea.new start_va end_va MapType.framed map_perm with
      | none => none
      | some a =>
        match MapArea.map s root a with
        | none => none
        | some s1 => loadPhs root rest s1 (areas ++ [a]) a.end_vpn
    else loadPhs root rest s areas maxVpn

/-- `MemorySet::from_elf` (memory_set.rs:306-359): `new_bare` allocates
the root node (`PageTable::new`), `map_trampoline` installs the
trampoline PTE, the magic is asserted, the `Load` program headers are
mapped, and `user_stack_base = VirtAddr::from(max_end_vpn) + PAGE_SIZE`.
Returns (machine, root, areas, user_stack_base, entry_point).  Note: no
trap-context and no user-stack area is mapped here. -/
def MemorySet.from_elf (s : Mach) (strampoline : Nat) (elf : ElfFile) :
    Option (Mach × Nat × List MapArea × Nat × Nat) :=
  match frame_alloc s with
  | none => none
  | some (root, s0) =>
    match MemorySet.map_trampoline s0 root strampoline with
    | none => none
    | some s1 =>
      if elf.magic = [0x7f, 0x45, 0x4c, 0x46] then
        match loadPhs root elf.phs s1 [] 0 with
        | none => none
        | some (s2, areas, maxVpn) =>
          some (s2, root, areas,
            (maxVpn <<< PAGE_SIZE_BITS) + PAGE_SIZE, elf.entry)
      else none

/-- Modelled from the spec (§2, missing from config.rs): the trap
context lives one page below the trampoline. -/
def TRAP_CONTEXT : Nat := TRAMPOLINE - PAGE_SIZE

/-- Modelled from the spec (§4.B, `MemorySet::translate` is not in
memory_set.rs): delegate to the inner page table. -/
def MemorySet.translate (s : Mach) (root vpn : Nat) : Option Nat :=
  PageTable.translate s root vpn

def machC2 : Mach := ⟨fun _ _ => 0, ⟨0, 100, []⟩⟩

/-- A minimal valid ELF: one PT_LOAD header, `[0x10000, 0x11000)`,
R+W+X, entry 0x10000. -/
def elfC2 : ElfFile :=
  ⟨[0x7f, 0x45, 0x4c, 0x46],
   [⟨true, 0x10000, 0x1000, 0x1000, 0, true, true, true⟩],
   0x10000⟩

/-- C2: refuted on the minimal valid ELF `elfC2`.  `from_elf` does map
each PT_LOAD header as a Framed area with permission `U ∪ {R,W,X}` and
returns `user_stack_base = max_end_va + PAGE_SIZE` (one guard page),
and the trampoline PTE is installed; but no trap-context area is mapped:
translating the trap-context VPN (one page below the trampoline) walks
through the trampoline's valid intermediate nodes and yields the all-zero
invalid PTE, which is no Framed R|W mapping (in `TaskControlBlock::new`
this makes `trap_cx_ppn = 0` instead of a freshly mapped frame). -/
theorem from_elf_trap_context_unmapped :
    ((MemorySet.from_elf machC2 0x80200000 elfC2).map
        (fun r => (r.2.1, r.2.2.1, r.2.2.2.1, r.2.2.2.2)) =
      some (0, [⟨16, 17, MapType.framed, 30⟩], 0x12000, 0x10000)) ∧
    ((MemorySet.from_elf machC2 0x80200000 elfC2).map
        (fun r => PageTable.translate r.1 0
          (VirtAddr.floor (VirtAddr.from_usize TRAMPOLINE))) =
      some (some (PageTableEntry.new 0x80200 (PTE_R ||| PTE_X ||| PTE_V)))) ∧
    ((MemorySet.from_elf machC2 0x80200000 elfC2).map
        (fun r => PageTable.translate r.1 0 16) =
      some (some (PageTableEntry.new 3
        (MapPermission.U ||| MapPermission.R ||| MapPermission.W |||
          MapPermission.X ||| PTE_V)))) ∧
    ((MemorySet.from_elf machC2 0x80200000 elfC2).map
        (fun r => MemorySet.translate r.1 0
          (VirtAddr.floor (VirtAddr.from_usize TRAP_CONTEXT))) =
      some (some 0)) ∧
    PageTableEntry.is_valid 0 = false ∧
    (∀ ppn flags, (0 : Nat) ≠ PageTableEntry.new ppn (flags ||| PTE_V)) := by
  refine ⟨by decide, by decide, by decide, by decide, rfl, ?_⟩
  intro ppn flags h
  have h1 : PageTableEntry.is_valid
      (PageTableEntry.new ppn (flags ||| PTE_V)) = true :=
    is_valid_new ppn (flags ||| PTE_V) (or_V_mod_two flags)
  rw [← h, is_valid_zero] at h1
  exact Bool.noConfusion h1

/-! ## sys_fork (src/os/src/syscall/process.rs, src/os/src/task/)

`MemorySet::from_existed_user` is not in memory_set.rs; per the spec it
copies the whole user space, trap context included, so the child's trap
context starts as a copy of the parent's.  `trap_cx` here stands for the
contents of the page at `trap_cx_ppn` that `get_trap_cx` returns. -/

/-- Modelled from the spec (§2 constants table, missing from config.rs):
`KERNEL_STACK_SIZE` is 8 KiB. -/
def KERNEL_STACK_SIZE : Nat := 8192

inductive TaskStatus where
  | ready : TaskStatus
  | running : TaskStatus
  | zombie : TaskStatus
deriving DecidableEq

/-- `TrapContext` (src/os/src/trap/context.rs): 32 general registers and
the pinned kernel fields. -/
structure TrapCx where
  x : Nat → Nat
  sstatus : Nat
  sepc : Nat
  kernel_satp : Nat
  kernel_sp : Nat
  trap_handler : Nat

/-- `PidAllocator` (src/os/src/task/pid.rs): pop a recycled pid (list
head = `Vec` top) or take `current` and bump it. -/
structure PidAllocator where
  current : Nat
  recycled : List Nat

def PidAllocator.alloc : PidAllocator → Nat × PidAllocator
  | ⟨cur, []⟩ => (cur, ⟨cur + 1, []⟩)
  | ⟨cur, p :: rest⟩ => (p, ⟨cur, rest⟩)

/-- `kernel_stack_position(app_id)`: `top = TRAMPOLINE -
app_id * (KERNEL_STACK_SIZE + PAGE_SIZE)`, bottom one stack below. -/
def kernel_stack_position (app_id : Nat) : Nat × Nat :=
  (TRAMPOLINE - app_id * (KERNEL_STACK_SIZE + PAGE_SIZE) - KERNEL_STACK_SIZE,
   TRAMPOLINE - app_id * (KERNEL_STACK_SIZE + PAGE_SIZE))

/-- `KernelStack::get_top` for the stack of a given pid. -/
def KernelStack.get_top (pid : Nat) : Nat := (kernel_stack_position pid).2

/-- The `TaskControlBlock` fields `sys_fork` acts on; the memory set and
frame ownership are outside this model. -/
structure TaskControlBlock where
  pid : Nat
  kernel_stack : Nat
  base_size : Nat
  task_status : TaskStatus
  trap_cx : TrapCx
  exit_code : Int

/-- `TaskControlBlock::fork` (task.rs:115-154): copy the user space
(hence the trap context), allocate a pid and its kernel stack, build a
Ready child, then overwrite `trap_cx.kernel_sp` with the new stack
top. -/
def TaskControlBlock.fork (parent : TaskControlBlock) (pa : PidAllocator) :
    TaskControlBlock × PidAllocator :=
  let r := pa.alloc
  let kernel_stack_top := KernelStack.get_top r.1
  ({ pid := r.1
     kernel_stack := r.1
     base_size := parent.base_size
     task_status := TaskStatus.ready
     trap_cx := { parent.trap_cx with kernel_sp := kernel_stack_top }
     exit_code := 0 }, r.2)

/-- Store into one general register. -/
def xUpd (x : Nat → Nat) (i v : Nat) : Nat → Nat :=
  fun j => if j = i then v else x j

/-- `sys_fork` (process.rs:30-43): fork, set the child's `x[10]` to 0,
`add_task` the child (ready-queue `push_back`), return the child's pid.
Returns (return value, child, pid allocator, ready queue). -/
def sys_fork (parent : TaskControlBlock) (pa : PidAllocator)
    (rq : List TaskControlBlock) :
    Int × TaskControlBlock × PidAllocator × List TaskControlBlock :=
  let fr := TaskControlBlock.fork parent pa
  let new_task := { fr.1 with
    trap_cx := { fr.1.trap_cx with x := xUpd fr.1.trap_cx.x 10 0 } }
  (Int.ofNat new_task.pid, new_task, fr.2, rq ++ [new_task])

/-- C5: after `sys_fork` the child's trap context has `x[10] = 0` (all
other registers and `sepc` copied from the parent, `kernel_sp` rebound
to the child's kernel-stack top), the child is appended to the ready
queue, and the syscall returns the child's pid (the pid the allocator
issued). -/
theorem sys_fork_spec (parent : TaskControlBlock) (pa : PidAllocator)
    (rq : List TaskControlBlock) :
    (sys_fork parent pa rq).2.1.trap_cx.x 10 = 0 ∧
    (sys_fork parent pa rq).2.2.2 = rq ++ [(sys_fork parent pa rq).2.1] ∧
    (sys_fork parent pa rq).1 =
      Int.ofNat (sys_fork parent pa rq).2.1.pid ∧
    (sys_fork parent pa rq).2.1.pid = (pa.alloc).1 ∧
    (∀ i, i ≠ 10 →
      (sys_fork parent pa rq).2.1.trap_cx.x i = parent.trap_cx.x i) ∧
    (sys_fork parent pa rq).2.1.trap_cx.kernel_sp =
      KernelStack.get_top (pa.alloc).1 ∧
    (sys_fork parent pa rq).2.1.trap_cx.sepc = parent.trap_cx.sepc ∧
    (sys_fork parent pa rq).2.1.task_status = TaskStatus.ready := by
  refine ⟨rfl, rfl, rfl, rfl, ?_, rfl, rfl, rfl⟩
  intro i hi
  show xUpd parent.trap_cx.x 10 0 i = parent.trap_cx.x i
  unfold xUpd
  rw [if_neg hi]

/-! ## sys_waitpid (src/os/src/syscall/process.rs:62-103)

A `Child` abstracts one `Arc<TaskControlBlock>` in the parent's
`children` vector: its pid, status, saved exit code, and
`other_refs = Arc::strong_count - 1` (strong references besides the
vector's own).  `MemorySet::token` is not in memory_set.rs; per the spec
it returns the page table's token, and `translated_refmut` re-derives
the root from it with `PageTable::from_token` and walks
`translate_va`.  The parent's user memory is `data`, one `i32` cell per
physical address. -/

structure Child where
  pid : Nat
  status : TaskStatus
  exit_code : Int
  other_refs : Nat
deriving DecidableEq

/-- `pid as usize`: the two's-complement cast of an `isize`. -/
def usizeOfInt (i : Int) : Nat := (i % (2 ^ 64 : Int)).toNat

/-- The filter `pid == -1 || pid as usize == p.getpid()`. -/
@[reducible] def childMatches (pid : Int) (c : Child) : Prop :=
  pid = -1 ∨ usizeOfInt pid = c.pid

/-- `children.iter().enumerate().find(|(_, p)| p.is_zombie() && (pid ==
-1 || pid as usize == p.getpid()))`. -/
def findZombie (pid : Int) : List Child → Nat → Option (Nat × Child)
  | [], _ => none
  | c :: rest, i =>
    if c.status = TaskStatus.zombie ∧ childMatches pid c then some (i, c)
    else findZombie pid rest (i + 1)

/-- `sys_waitpid`: −1 when no child matches; −2 when no matching child
is a Zombie; else remove the found child (`Vec::remove(idx)`), panic
unless its strong count is 1, write its exit code through
`translated_refmut(inner.memory_set.token(), exit_code_ptr)` (`none` is
that walk's `unwrap` panic) and return its pid. -/
def sys_waitpid (children : List Child) (s : Mach) (root : Nat)
    (data : Nat → Int) (pid : Int) (exit_code_ptr : Nat) :
    Option (Int × List Child × (Nat → Int)) :=
  if ¬ ∃ c ∈ children, childMatches pid c then some (-1, children, data)
  else
    match findZombie pid children 0 with
    | none => some (-2, children, data)
    | some (idx, child) =>
      if child.other_refs = 0 then
        match PageTable.translate_va s
            (PageTable.from_token (PageTable.token root))
            (VirtAddr.from_usize exit_code_ptr) with
        | none => none
        | some pa =>
          some (Int.ofNat child.pid,
            children.take idx ++ children.drop (idx + 1),
            fun a => if a = pa then child.exit_code else data a)
      else none

theorem findZombie_none (pid : Int) : ∀ (l : List Child) (i : Nat),
    (∀ c ∈ l, ¬ (c.status = TaskStatus.zombie ∧ childMatches pid c)) →
    findZombie pid l i = none := by
  intro l
  induction l with
  | nil => intro i _; rfl
  | cons c rest ih =>
    intro i h
    unfold findZombie
    rw [if_neg (h c (List.mem_cons_self c rest))]
    exact ih (i + 1) (fun d hd => h d (List.mem_cons_of_mem c hd))

theorem findZombie_app (pid : Int) (child : Child)
    (hz : child.status = TaskStatus.zombie)
    (hm : childMatches pid child) :
    ∀ (l1 l2 : List Child) (i : Nat),
    (∀ c ∈ l1, ¬ (c.status = TaskStatus.zombie ∧ childMatches pid c)) →
    findZombie pid (l1 ++ child :: l2) i = some (i + l1.length, child) := by
  intro l1
  induction l1 with
  | nil =>
    intro l2 i _
    show findZombie pid (child :: l2) i = some (i + List.length [], child)
    unfold findZombie
    rw [if_pos ⟨hz, hm⟩]
    simp
  | cons h t ih =>
    intro l2 i hnot
    show findZombie pid (h :: (t ++ child :: l2)) i = _
    unfold findZombie
    rw [if_neg (hnot h (List.mem_cons_self h t))]
    rw [ih l2 (i + 1) (fun d hd => hnot d (List.mem_cons_of_mem h hd))]
    have : i + 1 + t.length = i + (h :: t).length := by
      simp [List.length_cons]
      omega
    rw [this]

theorem findZombie_app0 (pid : Int) (child : Child) (l1 l2 : List Child)
    (hz : child.status = TaskStatus.zombie)
    (hm : childMatches pid child)
    (hnot : ∀ c ∈ l1, ¬ (c.status = TaskStatus.zombie ∧
      childMatches pid c)) :
    findZombie pid (l1 ++ child :: l2) 0 = some (l1.length, child) := by
  rw [findZombie_app pid child hz hm l1 l2 0 hnot]
  simp

theorem take_append_drop_removeIdx (l1 l2 : List Child) (c : Child) :
    (l1 ++ c :: l2).take l1.length ++
      (l1 ++ c :: l2).drop (l1.length + 1) = l1 ++ l2 := by
  induction l1 with
  | nil => simp
  | cons h t ih => simp [ih]

/-- C3: `sys_waitpid(pid, out_ptr)` returns −1 when no child matches the
filter (`pid = −1` matches any, else exact pid); −2 when a match exists
but no matching child is a Zombie; otherwise it removes the first
matching Zombie from the children list (its strong count must be 1,
i.e. no references besides the vector's), writes its exit code through
the page-table walk of `out_ptr` in the parent's address space, and
returns that child's pid. -/
theorem sys_waitpid_spec (children : List Child) (s : Mach) (root : Nat)
    (data : Nat → Int) (pid : Int) (ptr : Nat) :
    ((∀ c ∈ children, ¬ childMatches pid c) →
      sys_waitpid children s root data pid ptr =
        some (-1, children, data)) ∧
    ((∃ c ∈ children, childMatches pid c) →
      (∀ c ∈ children, ¬ (c.status = TaskStatus.zombie ∧
        childMatches pid c)) →
      sys_waitpid children s root data pid ptr =
        some (-2, children, data)) ∧
    (∀ l1 l2 child pa,
      children = l1 ++ child :: l2 →
      (∀ c ∈ l1, ¬ (c.status = TaskStatus.zombie ∧
        childMatches pid c)) →
      child.status = TaskStatus.zombie →
      childMatches pid child →
      child.other_refs = 0 →
      PageTable.translate_va s
          (PageTable.from_token (PageTable.token root))
          (VirtAddr.from_usize ptr) = some pa →
      ∃ f, sys_waitpid children s root data pid ptr =
          some (Int.ofNat child.pid, l1 ++ l2, f) ∧
        f pa = child.exit_code ∧
        ∀ a, a ≠ pa → f a = data a) := by
  refine ⟨?_, ?_, ?_⟩
  · intro h
    have hno : ¬ ∃ c ∈ children, childMatches pid c := by
      rintro ⟨c, hc, hm⟩
      exact h c hc hm
    unfold sys_waitpid
    rw [if_pos hno]
  · intro hex hnoz
    unfold sys_waitpid
    rw [if_neg (not_not_intro hex)]
    rw [findZombie_none pid children 0 hnoz]
  · intro l1 l2 child pa hch h1 hz hm hr htr
    subst hch
    have hex : ∃ c ∈ l1 ++ child :: l2, childMatches pid c :=
      ⟨child, by simp, hm⟩
    refine ⟨fun a => if a = pa then child.exit_code else data a,
      ?_, ?_, ?_⟩
    · unfold sys_waitpid
      rw [if_neg (not_not_intro hex)]
      rw [findZombie_app0 pid child l1 l2 hz hm h1]
      show (if child.other_refs = 0 then
          match PageTable.translate_va s
              (PageTable.from_token (PageTable.token root))
              (VirtAddr.from_usize ptr) with
          | none => none
          | some pa2 => some (Int.ofNat child.pid,
              (l1 ++ child :: l2).take l1.length ++
                (l1 ++ child :: l2).drop (l1.length + 1),
              fun a => if a = pa2 then child.exit_code else data a)
        else none) = _
      rw [if_pos hr, htr]
      show some (Int.ofNat child.pid,
          (l1 ++ child :: l2).take l1.length ++
            (l1 ++ child :: l2).drop (l1.length + 1),
          fun a => if a = pa then child.exit_code else data a) = _
      rw [take_append_drop_removeIdx l1 l2 child]
    · show (if pa = pa then child.exit_code else data pa) = child.exit_code
      rw [if_pos rfl]
    · intro a ha
      show (if a = pa then child.exit_code else data a) = data a
      rw [if_neg ha]

def machC3 : Mach :=
  ⟨fun p i =>
    if p = 5 ∧ i = 0 then PageTableEntry.new 6 1
    else if p = 6 ∧ i = 0 then PageTableEntry.new 7 1
    else if p = 7 ∧ i = 1 then PageTableEntry.new 9 7
    else 0, ⟨10, 20, []⟩⟩

theorem sys_waitpid_spec_witness :
    (⟨3, TaskStatus.zombie, 42, 0⟩ : Child).status = TaskStatus.zombie ∧
    childMatches (-1) ⟨3, TaskStatus.zombie, 42, 0⟩ ∧
    PageTable.translate_va machC3
      (PageTable.from_token (PageTable.token 5))
      (VirtAddr.from_usize 4096) = some 36864 ∧
    ∃ f, sys_waitpid [⟨3, TaskStatus.zombie, 42, 0⟩] machC3 5
        (fun _ => 0) (-1) 4096 = some (Int.ofNat 3, [] ++ [], f) ∧
      f 36864 = 42 ∧
      ∀ a, a ≠ 36864 → f a = (fun _ => (0 : Int)) a := by
  refine ⟨rfl, Or.inl rfl, by decide, ?_⟩
  exact (sys_waitpid_spec [⟨3, TaskStatus.zombie, 42, 0⟩] machC3 5
      (fun _ => 0) (-1) 4096).2.2
    [] [] ⟨3, TaskStatus.zombie, 42, 0⟩ 36864 rfl (by simp) rfl
    (Or.inl rfl) rfl (by decide)

end ChOs
